import Mathlib

/-!
Verification of the process-supervision and message-relay core of the
mcp-adapter repository, as a shallow embedding in Lean.

The embedding covers:
* the version matcher (`internal/runtime/runtime.go`):
  `MeetsRequirement`, `compareVersions`, `parseVersion`, `compareVersionParts`;
* the process supervisor (`internal/launcher/launcher.go`): `Launch`, `Stop`,
  `monitorProcess`, with the external world (runtime detection, entrypoint
  resolution, pipe creation, OS start) passed in explicitly;
* the stdio message transport (`internal/mcp/mcp.go`): `Send`/`Receive`
  over a character stream, including a model of Go `encoding/json`
  marshalling/unmarshalling specialised to the `Message` struct.

Strings from the Go source are modelled as `List Char`.  Machine integers
are modelled as `Nat`/`Int` (the version components never approach the
64-bit overflow boundary in any behaviour the development reasons about).
-/

set_option maxRecDepth 10000

namespace MCPAdapter

/-! ## Version matcher (`internal/runtime/runtime.go`) -/

/-- Value of a decimal-digit run, as computed by `strconv.Atoi` on a
    non-empty all-digit string (modelled on `Nat`, no 64-bit overflow). -/
def digitsToNat (ds : List Char) : Nat :=
  ds.foldl (fun a c => a * 10 + (c.toNat - 48)) 0

/-- `strings.Split(v, ".")`: split a character list on `'.'`.
    Splitting the empty list yields `[[]]`, exactly like Go. -/
def splitDots : List Char → List (List Char)
  | [] => [[]]
  | c :: rest =>
    if c = '.' then [] :: splitDots rest
    else
      match splitDots rest with
      | [] => [[c]]
      | g :: gs => (c :: g) :: gs

/-- Value of one dot-separated component: `regexp ^\d+` takes the leading
    digit run, `strconv.Atoi` converts it, and an empty run leaves the
    zero value (source: `parseVersion`, runtime.go lines 216-221). -/
def componentValue (comp : List Char) : Nat :=
  digitsToNat (comp.takeWhile Char.isDigit)

/-- `parseVersion` (runtime.go lines 213-224): split on dots, keep only the
    leading digit run of each component, non-numeric leading content
    yields 0. -/
def parseVersion (v : List Char) : List Nat :=
  (splitDots v).map componentValue

/-- `compareVersionParts` (runtime.go lines 226-250): compare component
    lists position by position up to the longer length, treating missing
    positions as 0.  The Go loop that pads the exhausted side with zeros
    and reports the first difference is rendered as: once one side is
    exhausted, the result is decided by the first (equivalently, by the
    existence of any) positive remaining component on the other side. -/
def compareVersionParts : List Nat → List Nat → Int
  | [], bs => if bs.any (fun b => 0 < b) then -1 else 0
  | a :: as, [] => if 0 < a then 1 else compareVersionParts as []
  | a :: as, b :: bs =>
    if a < b then -1 else if b < a then 1 else compareVersionParts as bs

/-- `compareVersions` (runtime.go lines 191-211). -/
def compareVersions (actual operator required : List Char) : Bool :=
  let cmp := compareVersionParts (parseVersion actual) (parseVersion required)
  if operator = ['>', '='] then cmp ≥ 0
  else if operator = ['<', '='] then cmp ≤ 0
  else if operator = ['>'] then cmp > 0
  else if operator = ['<'] then cmp < 0
  else if operator = ['='] ∨ operator = ['=', '='] then cmp = 0
  else false

/-- One alternative of the Go regexp `^(>=|<=|>|<|=)?(.+)$`: try to take
    `op` as the operator prefix; the remainder must be non-empty and
    newline-free (`.` excludes `'\n'` and `$` anchors at end of text). -/
def tryOp (op s : List Char) : Option (List Char × List Char) :=
  if op.isPrefixOf s then
    if s.drop op.length ≠ [] ∧ (s.drop op.length).all (fun c => c ≠ '\n')
    then some (op, s.drop op.length)
    else none
  else none

/-- `FindStringSubmatch` for `^(>=|<=|>|<|=)?(.+)$` with Go's
    leftmost-first semantics: alternatives of the greedy optional group
    are tried in written order, then the empty operator. -/
def findOpMatch (s : List Char) : Option (List Char × List Char) :=
  (tryOp ['>', '='] s).orElse fun _ =>
  (tryOp ['<', '='] s).orElse fun _ =>
  (tryOp ['>'] s).orElse fun _ =>
  (tryOp ['<'] s).orElse fun _ =>
  (tryOp ['='] s).orElse fun _ =>
  tryOp [] s

/-- `MeetsRequirement` (runtime.go lines 170-189): empty requirement is
    always met; a requirement that the regexp rejects is not met;
    otherwise an absent operator defaults to `>=` and the version
    comparison decides. -/
def MeetsRequirement (version requirement : List Char) : Bool :=
  if requirement = [] then true
  else
    match findOpMatch requirement with
    | none => false
    | some (op, requiredVersion) =>
      let operator := if op = [] then ['>', '='] else op
      compareVersions version operator requiredVersion

/-! ### Specification-side model of version comparison

The spec describes the order on versions as: zero-pad the component
tuples to the longer length, then compare lexicographically.  The
definitions below follow that wording; they are compared with the
source-derived `compareVersionParts` in the bridge lemma. -/

/-- Zero-pad a component tuple to length `n` (spec wording). -/
def padTo (n : Nat) (xs : List Nat) : List Nat :=
  xs ++ List.replicate (n - xs.length) 0

/-- Lexicographic `≥` on equally long component tuples (spec wording). -/
def lexGE : List Nat → List Nat → Bool
  | [], _ => true
  | _ :: _, [] => true
  | a :: as, b :: bs =>
    if b < a then true else if a < b then false else lexGE as bs

/-- Spec-side order: zero-pad both tuples to the longer length, then
    compare lexicographically. -/
def specLexGE (a b : List Nat) : Bool :=
  lexGE (padTo (max a.length b.length) a) (padTo (max a.length b.length) b)

theorem padTo_self (xs : List Nat) : padTo xs.length xs = xs := by
  simp [padTo]

theorem padTo_nil (n : Nat) : padTo n [] = List.replicate n 0 := by
  simp [padTo]

theorem padTo_cons (n : Nat) (x : Nat) (xs : List Nat) :
    padTo (n + 1) (x :: xs) = x :: padTo n xs := by
  simp [padTo, Nat.succ_sub_succ]

theorem lexGE_replicate_zero_left :
    ∀ bs : List Nat, lexGE (List.replicate bs.length 0) bs
      = !(bs.any fun b => 0 < b)
  | [] => rfl
  | b :: bs => by
    simp only [List.length_cons, List.replicate_succ, lexGE, List.any_cons,
      lexGE_replicate_zero_left bs]
    by_cases h : 0 < b <;> simp [h, Nat.not_lt_zero]

theorem lexGE_replicate_zero_right :
    ∀ as : List Nat, lexGE as (List.replicate as.length 0) = true
  | [] => rfl
  | a :: as => by
    simp only [List.length_cons, List.replicate_succ, lexGE,
      lexGE_replicate_zero_right as]
    by_cases h : 0 < a <;> simp [h, Nat.not_lt_zero]

theorem cvp_nil_right :
    ∀ as : List Nat, compareVersionParts as []
      = if as.any (fun a => 0 < a) then 1 else 0
  | [] => by simp [compareVersionParts]
  | a :: as => by
    simp only [compareVersionParts, List.any_cons, cvp_nil_right as]
    by_cases h : 0 < a <;> simp [h]

/-- Bridge between the source comparison and the spec wording: the Go
    padding loop reports `≥ 0` exactly when the zero-padded tuples
    compare lexicographically `≥`. -/
theorem cvp_nonneg_iff :
    ∀ a b : List Nat, 0 ≤ compareVersionParts a b ↔ specLexGE a b = true := by
  intro a
  induction a with
  | nil =>
    intro b
    have hpad : padTo (max ([] : List Nat).length b.length) b = b := by
      simp [padTo]
    simp only [compareVersionParts, specLexGE, hpad, padTo_nil]
    have hlen : max ([] : List Nat).length b.length = b.length := by simp
    rw [hlen, lexGE_replicate_zero_left]
    by_cases h : b.any (fun x => 0 < x) <;> simp [h]
  | cons a as ih =>
    intro b
    cases b with
    | nil =>
      have h1 : 0 ≤ compareVersionParts (a :: as) [] := by
        rw [cvp_nil_right]
        by_cases h : (a :: as).any (fun x => 0 < x) <;> simp [h]
      have hlen : max (a :: as).length ([] : List Nat).length
          = as.length + 1 := by simp
      have h2 : specLexGE (a :: as) [] = true := by
        simp only [specLexGE, hlen, padTo_nil, List.replicate_succ,
          padTo_cons, padTo_self as]
        simp only [lexGE]
        by_cases h : 0 < a
        · simp [h]
        · have ha : a = 0 := Nat.eq_zero_of_not_pos h
          simp [ha, lexGE_replicate_zero_right]
      simp [h1, h2]
    | cons b bs =>
      have hlen : max (a :: as).length (b :: bs).length
          = max as.length bs.length + 1 := by
        simp [Nat.succ_max_succ]
      have hle1 : as.length ≤ max as.length bs.length := Nat.le_max_left _ _
      have hle2 : bs.length ≤ max as.length bs.length := Nat.le_max_right _ _
      simp only [specLexGE, hlen, padTo_cons, lexGE, compareVersionParts]
      have hlenpad1 : (padTo (max as.length bs.length) as).length
          = max as.length bs.length := by simp [padTo, hle1]
      have hlenpad2 : (padTo (max as.length bs.length) bs).length
          = max as.length bs.length := by simp [padTo, hle2]
      by_cases hab : a < b
      · have hba : ¬ b < a := Nat.lt_asymm hab
        simp [hab, hba]
      · by_cases hba : b < a
        · simp [hab, hba]
        · have := ih bs
          simp only [specLexGE] at this
          simp [hab, hba, this, padTo]

/-- A dotted numeric version literal: every character is a digit or a
    dot, and the first character is a digit. -/
def NumericDotted (X : List Char) : Prop :=
  (∀ c ∈ X, c.isDigit = true ∨ c = '.') ∧
  ∃ d t, X = d :: t ∧ d.isDigit = true

theorem tryOp_newline_none (op s : List Char) (hs : '\n' ∈ s)
    (hop : '\n' ∉ op) : tryOp op s = none := by
  unfold tryOp
  by_cases hpre : op.isPrefixOf s
  · obtain ⟨t, ht⟩ := (List.isPrefixOf_iff_prefix.mp hpre)
    have hdropt : s.drop op.length = t := by
      rw [← ht]; exact List.drop_left op t
    have hmem : '\n' ∈ t := by
      rcases List.mem_append.mp (ht ▸ hs) with h | h
      · exact absurd h hop
      · exact h
    have hall : (s.drop op.length).all (fun c => c ≠ '\n') = false := by
      rw [hdropt]
      refine List.all_eq_false.mpr ⟨'\n', hmem, by simp⟩
    have hcond : ¬ (s.drop op.length ≠ []
        ∧ (s.drop op.length).all (fun c => c ≠ '\n') = true) := by
      rintro ⟨-, htrue⟩
      rw [hall] at htrue
      exact Bool.false_ne_true htrue
    rw [if_pos hpre, if_neg hcond]
  · rw [if_neg hpre]

theorem decide_cvp_eq_specLexGE (a b : List Nat) :
    decide (0 ≤ compareVersionParts a b) = specLexGE a b := by
  cases hsp : specLexGE a b
  · have hnot : ¬ (0 ≤ compareVersionParts a b) := by
      intro hle
      have h2 := (cvp_nonneg_iff a b).mp hle
      rw [hsp] at h2
      exact Bool.false_ne_true h2
    simp [hnot]
  · have hle : 0 ≤ compareVersionParts a b := (cvp_nonneg_iff a b).mpr hsp
    simp [hle]

theorem numericDotted_no_newline {X : List Char} (h : NumericDotted X) :
    X.all (fun c => c ≠ '\n') = true := by
  rw [List.all_eq_true]
  intro c hc
  rcases h.1 c hc with hdig | hdot
  · simp only [decide_eq_true_eq]
    intro he
    rw [he] at hdig
    exact absurd hdig (by decide)
  · simp only [decide_eq_true_eq]
    intro he
    rw [he] at hdot
    exact absurd hdot (by decide)

/-- C4: for a dotted numeric constraint version `X`, `MeetsRequirement`
    with an explicit `>=` operator — and with no operator at all, which
    defaults to `>=` — returns true exactly when the parsed component
    tuple of the actual version, zero-padded to the longer length, is
    lexicographically at least `X`'s; in particular
    `MeetsRequirement "18.4.0" ">=18.5"` is false and
    `MeetsRequirement "18.5.0" ">=18.5"` is true. -/
theorem meetsRequirement_ge_iff_lexGE (V X : List Char)
    (h : NumericDotted X) :
    MeetsRequirement V ('>' :: '=' :: X)
      = specLexGE (parseVersion V) (parseVersion X)
    ∧ MeetsRequirement V X = specLexGE (parseVersion V) (parseVersion X)
    ∧ MeetsRequirement (("18.4.0").data) ((">=18.5").data) = false
    ∧ MeetsRequirement (("18.5.0").data) ((">=18.5").data) = true := by
  obtain ⟨hall, d, t, hX, hd⟩ := h
  have hnl : X.all (fun c => c ≠ '\n') = true :=
    numericDotted_no_newline ⟨hall, d, t, hX, hd⟩
  have hXne : X ≠ [] := by rw [hX]; exact List.cons_ne_nil _ _
  refine ⟨?_, ?_, by decide, by decide⟩
  · have htry : tryOp ['>', '='] ('>' :: '=' :: X) = some (['>', '='], X) := by
      unfold tryOp
      have hpre : (['>', '='] : List Char).isPrefixOf ('>' :: '=' :: X) = true := by
        simp [List.isPrefixOf]
      have hcond : ('>' :: '=' :: X).drop (['>', '='] : List Char).length ≠ []
          ∧ (('>' :: '=' :: X).drop
              (['>', '='] : List Char).length).all (fun c => c ≠ '\n') = true := by
        constructor
        · simpa using hXne
        · simpa using hnl
      rw [if_pos hpre, if_pos hcond]
      simp
    have hfind : findOpMatch ('>' :: '=' :: X) = some (['>', '='], X) := by
      unfold findOpMatch
      rw [htry]
      rfl
    have hne : ('>' :: '=' :: X) ≠ [] := List.cons_ne_nil _ _
    simp only [MeetsRequirement, if_neg hne, hfind]
    simp only [compareVersions]
    simp [decide_cvp_eq_specLexGE]
  · have hd1 : ('>' == d) = false := by
      refine beq_eq_false_iff_ne.mpr fun he => ?_
      rw [← he] at hd
      exact absurd hd (by decide)
    have hd2 : ('<' == d) = false := by
      refine beq_eq_false_iff_ne.mpr fun he => ?_
      rw [← he] at hd
      exact absurd hd (by decide)
    have hd3 : ('=' == d) = false := by
      refine beq_eq_false_iff_ne.mpr fun he => ?_
      rw [← he] at hd
      exact absurd hd (by decide)
    have htry1 : tryOp ['>', '='] X = none := by
      rw [hX]; simp [tryOp, List.isPrefixOf, hd1]
    have htry2 : tryOp ['<', '='] X = none := by
      rw [hX]; simp [tryOp, List.isPrefixOf, hd2]
    have htry3 : tryOp ['>'] X = none := by
      rw [hX]; simp [tryOp, List.isPrefixOf, hd1]
    have htry4 : tryOp ['<'] X = none := by
      rw [hX]; simp [tryOp, List.isPrefixOf, hd2]
    have htry5 : tryOp ['='] X = none := by
      rw [hX]; simp [tryOp, List.isPrefixOf, hd3]
    have htry6 : tryOp [] X = some ([], X) := by
      unfold tryOp
      have hpre : ([] : List Char).isPrefixOf X = true := by
        simp [List.isPrefixOf]
      have hcond : X.drop ([] : List Char).length ≠ []
          ∧ (X.drop ([] : List Char).length).all (fun c => c ≠ '\n') = true := by
        constructor
        · simpa using hXne
        · simpa using hnl
      rw [if_pos hpre, if_pos hcond]
      simp
    have hfind : findOpMatch X = some ([], X) := by
      unfold findOpMatch
      rw [htry1]
      show (tryOp ['<', '='] X).orElse _ = _
      rw [htry2]
      show (tryOp ['>'] X).orElse _ = _
      rw [htry3]
      show (tryOp ['<'] X).orElse _ = _
      rw [htry4]
      show (tryOp ['='] X).orElse _ = _
      rw [htry5]
      show tryOp [] X = _
      rw [htry6]
    simp only [MeetsRequirement, if_neg hXne, hfind]
    simp only [compareVersions]
    simp [decide_cvp_eq_specLexGE]

/-- Closed instantiation of `meetsRequirement_ge_iff_lexGE` at the
    constraint version `18.5` and actual version `18.4.0`. -/
theorem meetsRequirement_ge_iff_lexGE_witness :
    NumericDotted (("18.5").data)
    ∧ MeetsRequirement (("18.4.0").data) ('>' :: '=' :: ("18.5").data)
        = specLexGE (parseVersion (("18.4.0").data))
            (parseVersion (("18.5").data)) := by
  have hnd : NumericDotted (("18.5").data) :=
    ⟨by decide, '1', ("8.5").data, by decide, by decide⟩
  exact ⟨hnd, (meetsRequirement_ge_iff_lexGE
    (("18.4.0").data) (("18.5").data) hnd).1⟩

/-- C5 counterexample: the constraint `">=abc"` has an operator prefix
    and a remainder that is not a parseable version, yet
    `MeetsRequirement` returns true (the remainder parses as `[0]`), so
    the claim that such a call returns false is refuted at this input. -/
theorem meetsRequirement_nonnumeric_constraint_true :
    MeetsRequirement (("18.4.0").data) ((">=abc").data) = true := by decide

/-- C5 amended: the constraints the operator-split pattern actually
    rejects (making `MeetsRequirement` return false regardless of the
    version) are exactly those containing a newline; an operator
    followed by non-numeric text is instead parsed with value 0
    components. -/
theorem meetsRequirement_newline_false (V R : List Char) (h : '\n' ∈ R) :
    MeetsRequirement V R = false := by
  have hne : R ≠ [] := by
    intro he
    rw [he] at h
    cases h
  have h1 := tryOp_newline_none ['>', '='] R h (by decide)
  have h2 := tryOp_newline_none ['<', '='] R h (by decide)
  have h3 := tryOp_newline_none ['>'] R h (by decide)
  have h4 := tryOp_newline_none ['<'] R h (by decide)
  have h5 := tryOp_newline_none ['='] R h (by decide)
  have h6 := tryOp_newline_none [] R h (by decide)
  have hfind : findOpMatch R = none := by
    unfold findOpMatch
    rw [h1]
    show (tryOp ['<', '='] R).orElse _ = _
    rw [h2]
    show (tryOp ['>'] R).orElse _ = _
    rw [h3]
    show (tryOp ['<'] R).orElse _ = _
    rw [h4]
    show (tryOp ['='] R).orElse _ = _
    rw [h5]
    show tryOp [] R = _
    rw [h6]
  simp [MeetsRequirement, hne, hfind]

/-- Closed instantiation of `meetsRequirement_newline_false` at a
    concrete newline-bearing constraint. -/
theorem meetsRequirement_newline_false_witness :
    '\n' ∈ ((">=1\n8").data)
    ∧ MeetsRequirement (("18").data) ((">=1\n8").data) = false :=
  ⟨by decide, meetsRequirement_newline_false (("18").data) ((">=1\n8").data)
    (by decide)⟩

theorem takeWhile_digits_append (pre suf : List Char)
    (hpre : ∀ c ∈ pre, c.isDigit = true)
    (hsuf : ∀ d ∈ suf.head?, d.isDigit = false) :
    (pre ++ suf).takeWhile Char.isDigit = pre := by
  induction pre with
  | nil =>
    cases suf with
    | nil => rfl
    | cons d t =>
      have hd : d.isDigit = false := hsuf d (by simp)
      simp [List.takeWhile_cons, hd]
  | cons c cs ih =>
    have hc : c.isDigit = true := hpre c (List.mem_cons_self c cs)
    have ih2 := ih (fun x hx => hpre x (List.mem_cons_of_mem c hx))
    simp [List.takeWhile_cons, hc, ih2]

/-- C8: only the leading digit run of each dot-separated component is
    parsed — a non-numeric suffix is dropped rather than rejected, a
    component with non-numeric leading content yields 0, and in
    particular `parseVersion "1.0.0-beta" = [1, 0, 0]`. -/
theorem parseVersion_strips_suffix :
    parseVersion (("1.0.0-beta").data) = [1, 0, 0]
    ∧ (∀ pre suf : List Char, (∀ c ∈ pre, c.isDigit = true) →
        (∀ d ∈ suf.head?, d.isDigit = false) →
        componentValue (pre ++ suf) = digitsToNat pre)
    ∧ (∀ (d : Char) (t : List Char), d.isDigit = false →
        componentValue (d :: t) = 0) := by
  refine ⟨by decide, ?_, ?_⟩
  · intro pre suf hpre hsuf
    unfold componentValue
    rw [takeWhile_digits_append pre suf hpre hsuf]
  · intro d t hd
    unfold componentValue
    simp [List.takeWhile_cons, hd, digitsToNat]

/-- Closed instantiation of `parseVersion_strips_suffix` on the
    component `1` with suffix `-beta` and on the component `beta`. -/
theorem parseVersion_strips_suffix_witness :
    componentValue ((("1").data) ++ (("-beta").data)) = digitsToNat (("1").data)
    ∧ componentValue ('b' :: (("eta").data)) = 0 :=
  ⟨(parseVersion_strips_suffix).2.1 (("1").data) (("-beta").data)
      (by decide) (by simp),
   (parseVersion_strips_suffix).2.2 'b' (("eta").data) (by decide)⟩

/-! ## Process supervisor (`internal/launcher/launcher.go`)

`Launch` is executed entirely under the launcher mutex (`l.mu`, lines
109-110), so it is modelled as an atomic function on the process table.
Its external effects — runtime detection, entrypoint resolution on the
filesystem, pipe creation, and the OS start call — are supplied as an
explicit `LaunchWorld` oracle recording each call's outcome. -/

/-- `State` (launcher.go lines 22-32). -/
inductive PState
  | unknown
  | starting
  | running
  | stopping
  | stopped
  | failed
deriving DecidableEq

/-- `manifest.ServerType`. -/
inductive ServerType
  | node
  | python
  | binary
deriving DecidableEq

/-- The fields of `manifest.Server` that `Launch` reads. -/
structure Server where
  name : List Char
  type : ServerType
  runtimeNode : List Char
  runtimePython : List Char
  args : List (List Char)
deriving DecidableEq

/-- `runtime.Runtime` as returned by `DetectForServer`. -/
structure RuntimeInfo where
  name : List Char
  path : List Char
  version : List Char
deriving DecidableEq

/-- The fields of `LaunchOptions` the model tracks: extra arguments and
    whether each stdio stream was explicitly redirected by the caller. -/
structure LaunchOpts where
  args : List (List Char)
  stdinGiven : Bool
  stdoutGiven : Bool
  stderrGiven : Bool
deriving DecidableEq

/-- The claims-relevant fields of a `Process` entry. -/
structure Proc where
  serverName : List Char
  state : PState
  exitCode : Int
  errSet : Bool
  startTime : Nat
  stopTime : Nat
  cmdProg : List Char
  cmdArgs : List (List Char)
deriving DecidableEq

/-- Outcomes of the external calls `Launch` makes, in program order:
    `DetectForServer`, `resolveEntrypoint`, the three pipe creations,
    and `cmd.Start`; `now` is the clock read for `StartTime`. -/
structure LaunchWorld where
  detect : Option RuntimeInfo
  entrypoint : Option (List Char)
  stdinPipeOk : Bool
  stdoutPipeOk : Bool
  stderrPipeOk : Bool
  startOk : Bool
  now : Nat
deriving DecidableEq

/-- The distinct error returns of `Launch`, one per early-return site. -/
inductive LaunchErr
  | alreadyRunning
  | detectFailed
  | runtimeUnmet
  | entrypointNotFound
  | pipeFailed
  | startFailed
deriving DecidableEq

/-- Result of one `Launch` call: the returned value, the process table
    afterwards, whether `cmd.Start` was invoked, and the unregistered
    `Process` record left behind by a failed start. -/
structure LaunchResult where
  outcome : Except LaunchErr Proc
  procs : List (List Char × Proc)
  startAttempted : Bool
  orphan : Option Proc

/-- Lookup in the `l.procs` map, modelled as an association list with
    unique keys. -/
def lookupProc (procs : List (List Char × Proc)) (name : List Char) :
    Option Proc :=
  (procs.find? fun q => q.1 = name).map fun q => q.2

/-- Map assignment `l.procs[name] = p`: replace the existing binding or
    append a new one. -/
def insertProc (procs : List (List Char × Proc)) (name : List Char)
    (p : Proc) : List (List Char × Proc) :=
  if procs.any fun q => q.1 = name then
    procs.map fun q => if q.1 = name then (name, p) else q
  else procs ++ [(name, p)]

/-- The version requirement consulted for the server's type
    (launcher.go lines 126-132); the `binary` case leaves it empty. -/
def versionReq (server : Server) : List Char :=
  match server.type with
  | .node => server.runtimeNode
  | .python => server.runtimePython
  | .binary => []

/-- `filepath.Ext(entrypoint) == ".js"`: since `"js"` contains no dot,
    the extension is `".js"` exactly when the path ends in `".js"`. -/
def extIsJs (p : List Char) : Bool :=
  ['.', 'j', 's'].isSuffixOf p

/-- `args := append(server.Args, opts.Args...)` (launcher.go line 147). -/
def assembledArgs (server : Server) (opts : LaunchOpts) : List (List Char) :=
  server.args ++ opts.args

/-- Command construction (launcher.go lines 149-163): a node server
    whose entrypoint is a `.js` file is run through the node binary with
    the entrypoint prepended to the argument list; every other case runs
    the entrypoint directly with the assembled arguments. -/
def buildCmd (server : Server) (rt : RuntimeInfo) (entry : List Char)
    (args : List (List Char)) : List Char × List (List Char) :=
  match server.type with
  | .node => if extIsJs entry then (rt.path, entry :: args) else (entry, args)
  | .python => (entry, args)
  | .binary => (entry, args)

/-- The `Process` record registered by a successful start
    (launcher.go lines 184-189 and 238-240). -/
def mkRunningProc (server : Server) (world : LaunchWorld)
    (cmd : List Char × List (List Char)) : Proc :=
  { serverName := server.name, state := .running, exitCode := 0,
    errSet := false, startTime := world.now, stopTime := 0,
    cmdProg := cmd.1, cmdArgs := cmd.2 }

/-- The `Process` record abandoned by a failed `cmd.Start`
    (launcher.go lines 231-236): state Failed, error recorded, never
    registered in the table. -/
def mkFailedProc (server : Server)
    (cmd : List Char × List (List Char)) : Proc :=
  { serverName := server.name, state := .failed, exitCode := 0,
    errSet := true, startTime := 0, stopTime := 0,
    cmdProg := cmd.1, cmdArgs := cmd.2 }

/-- The body of `Launch` after the already-running check
    (launcher.go lines 119-245). -/
def launchBody (procs : List (List Char × Proc)) (server : Server)
    (opts : LaunchOpts) (world : LaunchWorld) : LaunchResult :=
  match world.detect with
  | none => ⟨.error .detectFailed, procs, false, none⟩
  | some rt =>
    if versionReq server ≠ []
        ∧ MeetsRequirement rt.version (versionReq server) = false then
      ⟨.error .runtimeUnmet, procs, false, none⟩
    else
      match world.entrypoint with
      | none => ⟨.error .entrypointNotFound, procs, false, none⟩
      | some entry =>
        if ¬ opts.stdinGiven ∧ ¬ world.stdinPipeOk then
          ⟨.error .pipeFailed, procs, false, none⟩
        else if ¬ opts.stdoutGiven ∧ ¬ world.stdoutPipeOk then
          ⟨.error .pipeFailed, procs, false, none⟩
        else if ¬ opts.stderrGiven ∧ ¬ world.stderrPipeOk then
          ⟨.error .pipeFailed, procs, false, none⟩
        else if ¬ world.startOk then
          ⟨.error .startFailed, procs, true,
            some (mkFailedProc server
              (buildCmd server rt entry (assembledArgs server opts)))⟩
        else
          ⟨.ok (mkRunningProc server world
              (buildCmd server rt entry (assembledArgs server opts))),
            insertProc procs server.name
              (mkRunningProc server world
                (buildCmd server rt entry (assembledArgs server opts))),
            true, none⟩

/-- `Launch` (launcher.go lines 108-246): reject if the registered entry
    is Running, then run the body. -/
def launch (procs : List (List Char × Proc)) (server : Server)
    (opts : LaunchOpts) (world : LaunchWorld) : LaunchResult :=
  match lookupProc procs server.name with
  | some p =>
    if p.state = .running then ⟨.error .alreadyRunning, procs, false, none⟩
    else launchBody procs server opts world
  | none => launchBody procs server opts world

/-- Result of `proc.Cmd.Wait()` as observed by `monitorProcess`:
    success, or an error optionally convertible to an `ExitError`
    carrying an exit code. -/
inductive WaitResult
  | success
  | errored (exitCode : Option Int)
deriving DecidableEq

/-- `monitorProcess` (launcher.go lines 332-360), run under the entry's
    lock once the wait returns: record the stop timestamp; on error
    store the exit code when available, set the error flag, and mark
    Failed unless the state was already Stopping/Stopped; on success
    store exit code 0 and mark Stopped. -/
def monitorProcess (w : WaitResult) (now : Nat) (p : Proc) : Proc :=
  match w with
  | .success => { p with stopTime := now, exitCode := 0, state := .stopped }
  | .errored code =>
    let newCode : Int := match code with | some c => c | none => p.exitCode
    let p1 : Proc :=
      { p with stopTime := now, exitCode := newCode, errSet := true }
    if p.state ≠ .stopping ∧ p.state ≠ .stopped then
      { p1 with state := .failed }
    else
      { p1 with state := .stopped }

theorem insertProc_keys_nodup (procs : List (List Char × Proc))
    (name : List Char) (p : Proc)
    (h : (procs.map Prod.fst).Nodup) :
    ((insertProc procs name p).map Prod.fst).Nodup := by
  unfold insertProc
  by_cases hany : procs.any fun q => q.1 = name
  · rw [if_pos hany]
    have hkeys :
        (procs.map fun q => if q.1 = name then (name, p) else q).map Prod.fst
          = procs.map Prod.fst := by
      rw [List.map_map]
      apply List.map_congr_left
      intro q _
      by_cases hq1 : q.1 = name
      · simp [hq1]
      · simp [hq1]
    rw [hkeys]
    exact h
  · rw [if_neg hany]
    have hnot : name ∉ procs.map Prod.fst := by
      intro hmem
      obtain ⟨q, hq, hq1⟩ := List.mem_map.mp hmem
      exact hany (List.any_eq_true.mpr ⟨q, hq, by simp [hq1]⟩)
    rw [List.map_append, List.nodup_append]
    refine ⟨h, by simp, ?_⟩
    intro x hx
    simp only [List.map_cons, List.map_nil, List.mem_singleton]
    intro hxe
    rw [hxe] at hx
    exact hnot hx

theorem launchBody_procs_eq_or_insert (procs : List (List Char × Proc))
    (server : Server) (opts : LaunchOpts) (world : LaunchWorld) :
    (launchBody procs server opts world).procs = procs
    ∨ ∃ q, (launchBody procs server opts world).procs
        = insertProc procs server.name q := by
  unfold launchBody
  split
  · exact Or.inl rfl
  · split
    · exact Or.inl rfl
    · split
      · exact Or.inl rfl
      · split
        · exact Or.inl rfl
        · split
          · exact Or.inl rfl
          · split
            · exact Or.inl rfl
            · split
              · exact Or.inl rfl
              · exact Or.inr ⟨_, rfl⟩

/-- Exhaustive branch characterisation of `launchBody`: success
    registers a Running entry, a failed start leaves the table alone but
    records a Failed orphan, and every other failure leaves the table
    alone with no orphan. -/
theorem launchBody_cases (procs : List (List Char × Proc))
    (server : Server) (opts : LaunchOpts) (world : LaunchWorld) :
    (∃ p, launchBody procs server opts world
        = ⟨.ok p, insertProc procs server.name p, true, none⟩)
    ∨ (∃ o, launchBody procs server opts world
        = ⟨.error .startFailed, procs, true, some o⟩
        ∧ o.state = .failed ∧ o.errSet = true)
    ∨ (∃ e2, launchBody procs server opts world
        = ⟨.error e2, procs, false, none⟩
        ∧ e2 ≠ LaunchErr.startFailed ∧ e2 ≠ LaunchErr.alreadyRunning) := by
  unfold launchBody
  split
  · exact Or.inr (Or.inr ⟨_, rfl, by decide, by decide⟩)
  · split
    · exact Or.inr (Or.inr ⟨_, rfl, by decide, by decide⟩)
    · split
      · exact Or.inr (Or.inr ⟨_, rfl, by decide, by decide⟩)
      · split
        · exact Or.inr (Or.inr ⟨_, rfl, by decide, by decide⟩)
        · split
          · exact Or.inr (Or.inr ⟨_, rfl, by decide, by decide⟩)
          · split
            · exact Or.inr (Or.inr ⟨_, rfl, by decide, by decide⟩)
            · split
              · exact Or.inr (Or.inl ⟨_, rfl, rfl, rfl⟩)
              · exact Or.inl ⟨_, rfl⟩

/-- C1: a `Launch` call for a name whose registered entry is Running
    returns the "already running" error, leaves the process table
    unchanged, and never invokes the OS start call; and `Launch`
    preserves uniqueness of the per-name entries, so a second Running
    entry for a name can never come to exist. -/
theorem launch_rejects_running (procs : List (List Char × Proc))
    (server : Server) (opts : LaunchOpts) (world : LaunchWorld) :
    (∀ p, lookupProc procs server.name = some p → p.state = .running →
      (launch procs server opts world).outcome
          = Except.error LaunchErr.alreadyRunning
      ∧ (launch procs server opts world).procs = procs
      ∧ (launch procs server opts world).startAttempted = false)
    ∧ ((procs.map Prod.fst).Nodup →
        ((launch procs server opts world).procs.map Prod.fst).Nodup) := by
  constructor
  · intro p hp hrun
    unfold launch
    rw [hp]
    simp only []
    rw [if_pos hrun]
    exact ⟨rfl, rfl, rfl⟩
  · intro hnodup
    have hcase : (launch procs server opts world).procs = procs
        ∨ ∃ q, (launch procs server opts world).procs
            = insertProc procs server.name q := by
      unfold launch
      cases lookupProc procs server.name with
      | some p =>
        simp only []
        by_cases hrun : p.state = .running
        · left; rw [if_pos hrun]
        · rw [if_neg hrun]
          exact launchBody_procs_eq_or_insert procs server opts world
      | none => exact launchBody_procs_eq_or_insert procs server opts world
    rcases hcase with heq | ⟨q, heq⟩
    · rw [heq]; exact hnodup
    · rw [heq]; exact insertProc_keys_nodup procs server.name q hnodup

/-- A sample Running process entry, used by closed witnesses. -/
def sampleRunningProc : Proc where
  serverName := ['a']
  state := .running
  exitCode := 0
  errSet := false
  startTime := 0
  stopTime := 0
  cmdProg := []
  cmdArgs := []

/-- A sample binary-type server named `a`, used by closed witnesses. -/
def sampleServer : Server where
  name := ['a']
  type := .binary
  runtimeNode := []
  runtimePython := []
  args := [['a']]

/-- Sample launch options with one extra argument, used by witnesses. -/
def sampleOpts : LaunchOpts where
  args := [['b']]
  stdinGiven := false
  stdoutGiven := false
  stderrGiven := false

/-- A world in which every external call succeeds. -/
def sampleWorldOK : LaunchWorld where
  detect := some { name := [], path := [], version := [] }
  entrypoint := some ['e']
  stdinPipeOk := true
  stdoutPipeOk := true
  stderrPipeOk := true
  startOk := true
  now := 0

/-- A world in which runtime detection fails. -/
def sampleWorldNoDetect : LaunchWorld where
  detect := none
  entrypoint := none
  stdinPipeOk := true
  stdoutPipeOk := true
  stderrPipeOk := true
  startOk := true
  now := 0

/-- Closed instantiation of `launch_rejects_running`: a table holding a
    Running entry for the server's name makes `Launch` fail without
    touching the table or starting anything. -/
theorem launch_rejects_running_witness :
    (launch [(['a'], sampleRunningProc)] sampleServer sampleOpts
      sampleWorldOK).outcome = Except.error LaunchErr.alreadyRunning :=
  ((launch_rejects_running [(['a'], sampleRunningProc)] sampleServer
      sampleOpts sampleWorldOK).1 sampleRunningProc (by decide) rfl).1

/-- C6: when `Launch` fails for any reason other than the
    already-running conflict — detection failure, unmet runtime version,
    unresolved entrypoint, pipe failure, or a failed OS start — the
    process table is unchanged, no Running entry for the server's name
    exists afterwards, and a failed OS start leaves an unregistered
    record in state Failed with the error recorded. -/
theorem failed_launch_no_running_entry (procs : List (List Char × Proc))
    (server : Server) (opts : LaunchOpts) (world : LaunchWorld)
    (e : LaunchErr)
    (he : (launch procs server opts world).outcome = .error e)
    (hne : e ≠ .alreadyRunning) :
    (launch procs server opts world).procs = procs
    ∧ (∀ p, lookupProc (launch procs server opts world).procs server.name
        = some p → p.state ≠ .running)
    ∧ (e = .startFailed →
        ∃ o, (launch procs server opts world).orphan = some o
          ∧ o.state = .failed ∧ o.errSet = true) := by
  have hpass : ∀ p, lookupProc procs server.name = some p →
      p.state ≠ .running := by
    intro p hl hrun
    unfold launch at he
    rw [hl] at he
    simp only [] at he
    rw [if_pos hrun] at he
    exact hne (Except.error.inj he).symm
  have hbody : launch procs server opts world
      = launchBody procs server opts world := by
    unfold launch
    cases hl : lookupProc procs server.name with
    | none => rfl
    | some p =>
      simp only []
      rw [if_neg (hpass p hl)]
  rw [hbody] at he ⊢
  rcases launchBody_cases procs server opts world with
    ⟨p, heq⟩ | ⟨o, heq, ho1, ho2⟩ | ⟨e2, heq, he2, -⟩
  · rw [heq] at he
    cases he
  · rw [heq] at he ⊢
    have hee : LaunchErr.startFailed = e := Except.error.inj he
    exact ⟨rfl, fun p hl => hpass p hl, fun _ => ⟨o, rfl, ho1, ho2⟩⟩
  · rw [heq] at he ⊢
    have hee : e2 = e := Except.error.inj he
    refine ⟨rfl, fun p hl => hpass p hl, fun hsf => ?_⟩
    rw [hee] at he2
    exact absurd hsf he2

/-- Closed instantiation of `failed_launch_no_running_entry` at a failed
    runtime detection on an empty table. -/
theorem failed_launch_no_running_entry_witness :
    (launch [] sampleServer sampleOpts sampleWorldNoDetect).procs = [] :=
  (failed_launch_no_running_entry [] sampleServer sampleOpts
    sampleWorldNoDetect LaunchErr.detectFailed rfl (by decide)).1

/-- C7: when the watched process exits, the watcher records the stop
    timestamp; on a successful wait it stores exit code 0 and state
    Stopped; on a wait error carrying an exit code it stores that code
    and sets state Failed when the state was not already
    Stopping/Stopped, otherwise Stopped. -/
theorem monitor_bookkeeping (p : Proc) (now : Nat) (c : Int) :
    (monitorProcess .success now p).stopTime = now
    ∧ (monitorProcess .success now p).exitCode = 0
    ∧ (monitorProcess .success now p).state = .stopped
    ∧ (monitorProcess (.errored (some c)) now p).stopTime = now
    ∧ (monitorProcess (.errored (some c)) now p).exitCode = c
    ∧ ((p.state ≠ .stopping ∧ p.state ≠ .stopped) →
        (monitorProcess (.errored (some c)) now p).state = .failed)
    ∧ ((p.state = .stopping ∨ p.state = .stopped) →
        (monitorProcess (.errored (some c)) now p).state = .stopped) := by
  refine ⟨rfl, rfl, rfl, ?_, ?_, ?_, ?_⟩
  · unfold monitorProcess
    simp only []
    by_cases h : p.state ≠ .stopping ∧ p.state ≠ .stopped
    · rw [if_pos h]
    · rw [if_neg h]
  · unfold monitorProcess
    simp only []
    by_cases h : p.state ≠ .stopping ∧ p.state ≠ .stopped
    · rw [if_pos h]
    · rw [if_neg h]
  · intro h
    unfold monitorProcess
    simp only []
    rw [if_pos h]
  · intro h
    unfold monitorProcess
    simp only []
    have hn : ¬ (p.state ≠ .stopping ∧ p.state ≠ .stopped) := by
      rcases h with h | h
      · intro hc; exact hc.1 h
      · intro hc; exact hc.2 h
    rw [if_neg hn]

/-- Closed instantiation of `monitor_bookkeeping` on a Running entry
    that exits unexpectedly with code 3. -/
theorem monitor_bookkeeping_witness :
    (monitorProcess (.errored (some 3)) 7 sampleRunningProc).state
      = PState.failed :=
  (monitor_bookkeeping sampleRunningProc 7 3).2.2.2.2.2.1 (by decide)

/-- C9: a successful `Launch` assembles the final argument list as the
    server-declared defaults followed by the caller extras, in that
    order with no deduplication; the spawned command's argv is exactly
    that list, with the resolved entrypoint additionally prepended in
    the node-script case where the interpreter binary is the program. -/
theorem launch_args_order (procs : List (List Char × Proc))
    (server : Server) (opts : LaunchOpts) (world : LaunchWorld)
    (proc : Proc)
    (hok : (launch procs server opts world).outcome = .ok proc) :
    assembledArgs server opts = server.args ++ opts.args
    ∧ (proc.cmdArgs = server.args ++ opts.args
       ∨ ∃ entry, world.entrypoint = some entry ∧ extIsJs entry = true
           ∧ proc.cmdArgs = entry :: (server.args ++ opts.args)) := by
  refine ⟨rfl, ?_⟩
  have hbody : launch procs server opts world
      = launchBody procs server opts world := by
    unfold launch
    cases hl : lookupProc procs server.name with
    | none => rfl
    | some p =>
      simp only []
      by_cases hrun : p.state = .running
      · exfalso
        unfold launch at hok
        rw [hl] at hok
        simp only [] at hok
        rw [if_pos hrun] at hok
        cases hok
      · rw [if_neg hrun]
  rw [hbody] at hok
  unfold launchBody at hok
  split at hok
  · cases hok
  next rt hdet =>
    split at hok
    · cases hok
    split at hok
    · cases hok
    next entry hent =>
      split at hok
      · cases hok
      split at hok
      · cases hok
      split at hok
      · cases hok
      split at hok
      · cases hok
      have hproc : mkRunningProc server world
          (buildCmd server rt entry (assembledArgs server opts)) = proc :=
        Except.ok.inj hok
      rw [← hproc]
      unfold mkRunningProc buildCmd assembledArgs
      split
      · split
        · next hjs => exact Or.inr ⟨entry, hent, hjs, rfl⟩
        · exact Or.inl rfl
      · exact Or.inl rfl
      · exact Or.inl rfl

/-- Closed instantiation of `launch_args_order`: a binary server with
    default args `[a]` launched with extra args `[b]` receives argv
    `[a, b]`. -/
theorem launch_args_order_witness :
    ∃ proc, (launch [] sampleServer sampleOpts sampleWorldOK).outcome
        = .ok proc
      ∧ proc.cmdArgs = [['a']] ++ [['b']] := by
  refine ⟨_, rfl, ?_⟩
  have hmain := (launch_args_order [] sampleServer sampleOpts sampleWorldOK
    _ rfl).2
  rcases hmain with h | ⟨entry, _, hjs, _⟩
  · exact h
  · have hent : sampleWorldOK.entrypoint = some ['e'] := rfl
    rw [hent] at *
    exact absurd hjs (by
      rcases Option.some.inj (by assumption : some ['e'] = some entry) with h2
      rw [← h2]
      decide)

/-! ## The Stop / watcher wait race

`Stop` (launcher.go lines 272-276) spawns a goroutine that calls
`proc.Cmd.Wait()`, while the watcher started by `Launch`
(launcher.go line 333) is concurrently inside its own
`proc.Cmd.Wait()` on the same `Cmd`.  Go's `os/exec.Cmd.Wait` executes,
with no lock around them, the steps: (1) check `c.ProcessState != nil`
and return an "already called" error if set; (2) call the blocking OS
wait `c.Process.Wait()`; (3) assign `c.ProcessState`.  The model below
gives each of the two goroutines a program counter over those steps and
interleaves them; `osWaits` counts invocations of the OS wait. -/

/-- Program counter of one goroutine executing `Cmd.Wait`. -/
inductive WaitPc
  | beforeCheck
  | inOsWait
  | returned
  | returnedErr
deriving DecidableEq

/-- Shared state of the two racing `Cmd.Wait` calls. -/
structure WaitRaceState where
  exited : Bool
  psRecorded : Bool
  osWaits : Nat
  watcher : WaitPc
  stopper : WaitPc
deriving DecidableEq

/-- Both goroutines are about to run `Cmd.Wait`'s check; the process is
    still alive and `ProcessState` is unset. -/
def initWaitRace : WaitRaceState :=
  { exited := false, psRecorded := false, osWaits := 0,
    watcher := .beforeCheck, stopper := .beforeCheck }

/-- Interleaved small-step semantics of the two `Cmd.Wait` calls plus
    the process-exit event.  A goroutine whose check sees `ProcessState`
    unset proceeds to invoke the OS wait; one that sees it set returns
    the "Wait was already called" error without an OS wait; an invoked
    OS wait completes once the process has exited, after which
    `ProcessState` is assigned. -/
inductive WaitStep : WaitRaceState → WaitRaceState → Prop
  | exit (s : WaitRaceState) (h : s.exited = false) :
      WaitStep s { s with exited := true }
  | watcherCheckClear (s : WaitRaceState) (h1 : s.watcher = .beforeCheck)
      (h2 : s.psRecorded = false) :
      WaitStep s { s with watcher := .inOsWait, osWaits := s.osWaits + 1 }
  | watcherCheckRecorded (s : WaitRaceState) (h1 : s.watcher = .beforeCheck)
      (h2 : s.psRecorded = true) :
      WaitStep s { s with watcher := .returnedErr }
  | watcherFinish (s : WaitRaceState) (h1 : s.watcher = .inOsWait)
      (h2 : s.exited = true) :
      WaitStep s { s with watcher := .returned, psRecorded := true }
  | stopperCheckClear (s : WaitRaceState) (h1 : s.stopper = .beforeCheck)
      (h2 : s.psRecorded = false) :
      WaitStep s { s with stopper := .inOsWait, osWaits := s.osWaits + 1 }
  | stopperCheckRecorded (s : WaitRaceState) (h1 : s.stopper = .beforeCheck)
      (h2 : s.psRecorded = true) :
      WaitStep s { s with stopper := .returnedErr }
  | stopperFinish (s : WaitRaceState) (h1 : s.stopper = .inOsWait)
      (h2 : s.exited = true) :
      WaitStep s { s with stopper := .returned, psRecorded := true }

/-- State after the watcher's check passed and it invoked the OS wait. -/
def raceAfterWatcherCheck : WaitRaceState :=
  { exited := false, psRecorded := false, osWaits := 1,
    watcher := .inOsWait, stopper := .beforeCheck }

/-- State after both goroutines passed the check: two OS waits invoked. -/
def raceAfterBothChecks : WaitRaceState :=
  { exited := false, psRecorded := false, osWaits := 2,
    watcher := .inOsWait, stopper := .inOsWait }

/-- C2 refutation: there is a reachable interleaving of the watcher's
    and Stop's concurrent `Cmd.Wait` calls in which the OS wait has been
    invoked twice — both goroutines pass the unsynchronised
    `ProcessState` check before either records it — so the wait/reap is
    not invoked at most once and the two callers do not coordinate
    through a single-wait primitive. -/
theorem stop_watcher_double_os_wait :
    ∃ s : WaitRaceState,
      Relation.ReflTransGen WaitStep initWaitRace s
      ∧ s.osWaits = 2 ∧ s.watcher = .inOsWait ∧ s.stopper = .inOsWait := by
  refine ⟨raceAfterBothChecks, ?_, rfl, rfl, rfl⟩
  have h1 : WaitStep initWaitRace raceAfterWatcherCheck :=
    WaitStep.watcherCheckClear initWaitRace rfl rfl
  have h2 : WaitStep raceAfterWatcherCheck raceAfterBothChecks :=
    WaitStep.stopperCheckClear raceAfterWatcherCheck rfl rfl
  exact Relation.ReflTransGen.head h1 (Relation.ReflTransGen.head h2
    Relation.ReflTransGen.refl)

/-! ## Message transport (`internal/mcp/mcp.go`)

`Message` is the JSON-RPC envelope struct; `Send` marshals it with Go's
`encoding/json` and writes the bytes plus one newline; `Receive` reads
one newline-delimited line with `bufio.Reader.ReadBytes('\n')` and
unmarshals it.  The model below embeds `encoding/json` specialised to
this struct: JSON values are an explicit AST (`Json`), serialisation
follows Go's compact encoder including its string-escape rules
(`"`/`\`/`\n`/`\r`/`\t`, control characters, HTML-escaped `<`, `>`, `&`,
and U+2028/U+2029), and decoding follows Go's scanner (whitespace
skipping, per-field type checking, later duplicate keys overwriting,
unknown keys ignored, `null` a no-op for string/int fields and a clear
for pointer/interface fields).  JSON numbers are modelled as integer
literals; floating-point formatting is outside the model.  `params`,
`result` and `error.data` are raw/`interface` payloads modelled as `Json`
trees.  The parser carries a fuel argument bounding recursion depth;
callers pass a fuel derived from the input length, which the
size-vs-length lemmas show is always sufficient. -/

/-- JSON value AST (integer number literals). -/
inductive Json where
  | null
  | bool (b : Bool)
  | num (n : Int)
  | str (s : List Char)
  | arr (elems : List Json)
  | obj (fields : List (List Char × Json))

/-- Opening brace character. -/
def braceOpen : Char := Char.ofNat 123

/-- Closing brace character. -/
def braceClose : Char := Char.ofNat 125

/-- `Error` (mcp.go lines 22-27): JSON-RPC error object. -/
structure Error where
  code : Int
  message : List Char
  data : Option Json

/-- `Message` (mcp.go lines 12-20): the JSON-RPC envelope.  Field types
    mirror the Go struct: `id` is an optional JSON value (`interface{}`
    with `omitempty`), `params`/`result` are optional raw JSON payloads
    (`json.RawMessage` with `omitempty`), `error` an optional `*Error`. -/
structure Message where
  jsonrpc : List Char
  id : Option Json
  method : List Char
  params : Option Json
  result : Option Json
  error : Option Error

/-- Lower-case hex digit, as Go's encoder emits. -/
def hexDigitChar (n : Nat) : Char :=
  if n < 10 then Char.ofNat (48 + n) else Char.ofNat (87 + n)

/-- Value of one hex digit, as Go's decoder accepts. -/
def hexVal (c : Char) : Option Nat :=
  if '0' ≤ c ∧ c ≤ '9' then some (c.toNat - 48)
  else if 'a' ≤ c ∧ c ≤ 'f' then some (c.toNat - 87)
  else if 'A' ≤ c ∧ c ≤ 'F' then some (c.toNat - 55)
  else none

/-- Go `encoding/json` string escaping for one character (HTML escaping
    on, as in `json.Marshal`): backslash escapes for `"`, `\`, `\n`,
    `\r`, `\t`; `\u00XX` for other control characters and for `<`, `>`,
    `&`; `\u202X` for U+2028/U+2029; everything else verbatim. -/
def escapeChar (c : Char) : List Char :=
  if c = '"' then ['\\', '"']
  else if c = '\\' then ['\\', '\\']
  else if c = '\n' then ['\\', 'n']
  else if c = '\r' then ['\\', 'r']
  else if c = '\t' then ['\\', 't']
  else if c = '<' ∨ c = '>' ∨ c = '&' ∨ c.toNat < 32 then
    ['\\', 'u', '0', '0', hexDigitChar (c.toNat / 16), hexDigitChar (c.toNat % 16)]
  else if c.toNat = 8232 ∨ c.toNat = 8233 then
    ['\\', 'u', '2', '0', '2', hexDigitChar (c.toNat % 16)]
  else [c]

/-- Escape every character of a string body. -/
def escapeString (s : List Char) : List Char :=
  (s.map escapeChar).flatten

/-- Serialise a JSON string: quote, escaped body, quote. -/
def serStr (s : List Char) : List Char :=
  '"' :: escapeString s ++ ['"']

/-- Decimal digit character. -/
def digitChar (n : Nat) : Char := Char.ofNat (48 + n)

/-- Decimal digits of `n`, most significant first (fuelled so that the
    definition is structural; `natDigits` supplies sufficient fuel). -/
def natDigitsF : Nat → Nat → List Char
  | 0, _ => []
  | fuel + 1, n =>
    if n < 10 then [digitChar n]
    else natDigitsF fuel (n / 10) ++ [digitChar (n % 10)]

/-- Decimal digits of `n`. -/
def natDigits (n : Nat) : List Char := natDigitsF (n + 1) n

/-- Compact encoding of an integer JSON number. -/
def serNum (n : Int) : List Char :=
  if n < 0 then '-' :: natDigits n.natAbs else natDigits n.toNat

mutual
/-- Go's compact JSON serialisation of a value. -/
def serJson : Json → List Char
  | .num n => serNum n
  | .null => ['n', 'u', 'l', 'l']
  | .str s => serStr s
  | .bool true => ['t', 'r', 'u', 'e']
  | .arr xs => '[' :: serElems xs ++ [']']
  | .bool false => ['f', 'a', 'l', 's', 'e']
  | .obj fs => braceOpen :: serFields fs ++ [braceClose]
/-- Comma-separated serialisation of array elements. -/
def serElems : List Json → List Char
  | [] => []
  | [x] => serJson x
  | x :: y :: xs => serJson x ++ ',' :: serElems (y :: xs)
/-- Comma-separated serialisation of object members. -/
def serFields : List (List Char × Json) → List Char
  | [] => []
  | [(k, v)] => serStr k ++ ':' :: serJson v
  | (k, v) :: f :: fs => serStr k ++ ':' :: serJson v ++ ',' :: serFields (f :: fs)
end

mutual
/-- Parser-fuel lower bound for one value. -/
def sizeV : Json → Nat
  | .arr xs => 2 + sizeL xs
  | .obj fs => 2 + sizeF fs
  | _ => 1
/-- Parser-fuel lower bound for an element list. -/
def sizeL : List Json → Nat
  | [] => 0
  | x :: xs => 1 + sizeV x + sizeL xs
/-- Parser-fuel lower bound for a member list. -/
def sizeF : List (List Char × Json) → Nat
  | [] => 0
  | (_, v) :: fs => 1 + sizeV v + sizeF fs
end

/-- JSON insignificant whitespace, as in Go's scanner. -/
def isWs (c : Char) : Bool :=
  c = ' ' ∨ c = '\t' ∨ c = '\n' ∨ c = '\r'

/-- Drop leading insignificant whitespace. -/
def skipWs : List Char → List Char
  | [] => []
  | c :: rest => if isWs c then skipWs rest else c :: rest

/-- Decode one backslash escape (other than `\u`), as Go's decoder. -/
def unescapeChar (c : Char) : Option Char :=
  if c = '"' then some '"'
  else if c = '\\' then some '\\'
  else if c = '/' then some '/'
  else if c = 'b' then some (Char.ofNat 8)
  else if c = 'f' then some (Char.ofNat 12)
  else if c = 'n' then some '\n'
  else if c = 'r' then some '\r'
  else if c = 't' then some '\t'
  else none

/-- Value of four hex digits. -/
def hex4 (h1 h2 h3 h4 : Char) : Option Nat :=
  match hexVal h1, hexVal h2, hexVal h3, hexVal h4 with
  | some v1, some v2, some v3, some v4 =>
    some (((v1 * 16 + v2) * 16 + v3) * 16 + v4)
  | _, _, _, _ => none

/-- Parse a string body after the opening quote: literal characters up
    to the closing quote, backslash escapes including `\uXXXX` (a `\u`
    not followed by four characters falls through to the short-escape
    case and fails there), raw control characters rejected. -/
def parseStringBody : List Char → Option (List Char × List Char)
  | [] => none
  | '"' :: rest => some ([], rest)
  | '\\' :: 'u' :: h1 :: h2 :: h3 :: h4 :: rest =>
    match hex4 h1 h2 h3 h4, parseStringBody rest with
    | some v, some (s, r) => some (Char.ofNat v :: s, r)
    | _, _ => none
  | '\\' :: e :: rest =>
    match unescapeChar e, parseStringBody rest with
    | some d, some (s, r) => some (d :: s, r)
    | _, _ => none
  | c :: rest =>
    if c.toNat < 32 then none
    else
      match parseStringBody rest with
      | some (s, r) => some (c :: s, r)
      | none => none

/-- Take the maximal leading digit run. -/
def takeDigits : List Char → List Char × List Char
  | [] => ([], [])
  | c :: rest =>
    if c.isDigit then
      match takeDigits rest with
      | (ds, r) => (c :: ds, r)
    else ([], c :: rest)

/-- Parse an integer JSON number literal: optional minus sign and a
    non-empty digit run. -/
def parseNum : List Char → Option (Int × List Char)
  | [] => none
  | c :: rest =>
    if c = '-' then
      if (takeDigits rest).1.isEmpty then none
      else some (-(digitsToNat (takeDigits rest).1 : Int), (takeDigits rest).2)
    else
      if (takeDigits (c :: rest)).1.isEmpty then none
      else some ((digitsToNat (takeDigits (c :: rest)).1 : Int),
        (takeDigits (c :: rest)).2)

/-- Match an exact literal continuation (`ull` after `n`, etc.). -/
def afterLit : List Char → List Char → Option (List Char)
  | [], s => some s
  | _ :: _, [] => none
  | c :: cs, d :: ds => if c = d then afterLit cs ds else none

mutual
/-- Fuelled JSON value parser, dispatching on the first significant
    character exactly as Go's scanner does. -/
def parseValue : Nat → List Char → Option (Json × List Char)
  | 0, _ => none
  | fuel + 1, input =>
    match skipWs input with
    | [] => none
    | c :: rest =>
      if c = 'n' then
        match afterLit ['u', 'l', 'l'] rest with
        | some r => some (.null, r)
        | none => none
      else if c = 't' then
        match afterLit ['r', 'u', 'e'] rest with
        | some r => some (.bool true, r)
        | none => none
      else if c = 'f' then
        match afterLit ['a', 'l', 's', 'e'] rest with
        | some r => some (.bool false, r)
        | none => none
      else if c = '"' then
        match parseStringBody rest with
        | some (s, r) => some (.str s, r)
        | none => none
      else if c = '[' then parseArrBody fuel rest
      else if c = braceOpen then parseObjBody fuel rest
      else
        match parseNum (c :: rest) with
        | some (n, r) => some (.num n, r)
        | none => none
/-- Parse an array's contents after `[`. -/
def parseArrBody : Nat → List Char → Option (Json × List Char)
  | 0, _ => none
  | fuel + 1, input =>
    match skipWs input with
    | [] => none
    | c :: rest =>
      if c = ']' then some (.arr [], rest)
      else
        match parseElemsRest fuel (c :: rest) with
        | some (vs, r) => some (.arr vs, r)
        | none => none
/-- Parse one or more comma-separated elements up to `]`. -/
def parseElemsRest : Nat → List Char → Option (List Json × List Char)
  | 0, _ => none
  | fuel + 1, input =>
    match parseValue fuel input with
    | none => none
    | some (v, r1) =>
      match skipWs r1 with
      | [] => none
      | c :: r2 =>
        if c = ',' then
          match parseElemsRest fuel r2 with
          | some (vs, r3) => some (v :: vs, r3)
          | none => none
        else if c = ']' then some ([v], r2)
        else none
/-- Parse an object's contents after the opening brace. -/
def parseObjBody : Nat → List Char → Option (Json × List Char)
  | 0, _ => none
  | fuel + 1, input =>
    match skipWs input with
    | [] => none
    | c :: rest =>
      if c = braceClose then some (.obj [], rest)
      else
        match parseFieldsRest fuel (c :: rest) with
        | some (fs, r) => some (.obj fs, r)
        | none => none
/-- Parse one or more comma-separated members up to the closing brace. -/
def parseFieldsRest : Nat → List Char →
    Option (List (List Char × Json) × List Char)
  | 0, _ => none
  | fuel + 1, input =>
    match skipWs input with
    | [] => none
    | c :: rest =>
      if c = '"' then
        match parseStringBody rest with
        | none => none
        | some (k, r1) =>
          match skipWs r1 with
          | [] => none
          | c2 :: r2 =>
            if c2 = ':' then
              match parseValue fuel r2 with
              | none => none
              | some (v, r3) =>
                match skipWs r3 with
                | [] => none
                | c3 :: r4 =>
                  if c3 = ',' then
                    match parseFieldsRest fuel r4 with
                    | some (fs, r5) => some ((k, v) :: fs, r5)
                    | none => none
                  else if c3 = braceClose then some ([(k, v)], r4)
                  else none
            else none
      else none
end

/-! ### Marshalling and unmarshalling of the `Message` struct -/

/-- The struct tag key `jsonrpc`. -/
def keyJsonrpc : List Char := ['j', 's', 'o', 'n', 'r', 'p', 'c']

/-- The struct tag key `id`. -/
def keyId : List Char := ['i', 'd']

/-- The struct tag key `method`. -/
def keyMethod : List Char := ['m', 'e', 't', 'h', 'o', 'd']

/-- The struct tag key `params`. -/
def keyParams : List Char := ['p', 'a', 'r', 'a', 'm', 's']

/-- The struct tag key `result`. -/
def keyResult : List Char := ['r', 'e', 's', 'u', 'l', 't']

/-- The struct tag key `error`. -/
def keyError : List Char := ['e', 'r', 'r', 'o', 'r']

/-- The struct tag key `code`. -/
def keyCode : List Char := ['c', 'o', 'd', 'e']

/-- The struct tag key `message`. -/
def keyMessage : List Char := ['m', 'e', 's', 's', 'a', 'g', 'e']

/-- The struct tag key `data`. -/
def keyData : List Char := ['d', 'a', 't', 'a']

/-- The JSON object Go marshals for an `Error`: `code` and `message`
    always (no `omitempty`), `data` only when the interface is non-nil. -/
def errorToJson (e : Error) : Json :=
  .obj ([(keyCode, .num e.code), (keyMessage, .str e.message)]
    ++ (match e.data with
        | none => []
        | some d => [(keyData, d)]))

/-- The members Go marshals for a `Message`, in struct field order:
    `jsonrpc` always; `id`, `params`, `result`, `error` when the
    respective value is non-nil (`omitempty`); `method` when non-empty
    (`omitempty` on a string). -/
def msgFields (m : Message) : List (List Char × Json) :=
  [(keyJsonrpc, .str m.jsonrpc)]
  ++ (match m.id with
      | none => []
      | some v => [(keyId, v)])
  ++ (if m.method = [] then [] else [(keyMethod, .str m.method)])
  ++ (match m.params with
      | none => []
      | some v => [(keyParams, v)])
  ++ (match m.result with
      | none => []
      | some v => [(keyResult, v)])
  ++ (match m.error with
      | none => []
      | some e => [(keyError, errorToJson e)])

/-- `json.Marshal` of a `Message`: the compact serialisation of its
    member list. -/
def marshalMessage (m : Message) : List Char :=
  serJson (.obj (msgFields m))

/-- Whether a JSON value is the literal `null`. -/
def isNullJson : Json → Bool
  | .null => true
  | _ => false

/-- Zero value of the `Error` struct, used when the decoder allocates a
    fresh `*Error`. -/
def zeroError : Error := { code := 0, message := [], data := none }

/-- Decode one member into an `Error`, as Go's reflection does: `code`
    requires a number (null is a no-op), `message` a string (null a
    no-op), `data` takes any value (null clears the interface), unknown
    keys are ignored. -/
def applyErrField (e : Error) (kv : List Char × Json) : Option Error :=
  if kv.1 = keyCode then
    match kv.2 with
    | .num n => some { e with code := n }
    | .null => some e
    | _ => none
  else if kv.1 = keyMessage then
    match kv.2 with
    | .str s => some { e with message := s }
    | .null => some e
    | _ => none
  else if kv.1 = keyData then
    if isNullJson kv.2 then some { e with data := none }
    else some { e with data := some kv.2 }
  else some e

/-- Fold `applyErrField` over an object's members in order (duplicate
    keys: later wins). -/
def applyErrFields : Error → List (List Char × Json) → Option Error
  | e, [] => some e
  | e, kv :: fs =>
    match applyErrField e kv with
    | some e2 => applyErrFields e2 fs
    | none => none

/-- Decode one member into a `Message`, as Go's reflection does:
    `jsonrpc`/`method` require strings (null a no-op), `id` takes any
    value (null leaves the interface nil), `params`/`result` store any
    raw value including null, `error` takes null (clearing the pointer)
    or an object decoded into an `Error`, unknown keys are ignored. -/
def applyMsgField (m : Message) (kv : List Char × Json) : Option Message :=
  if kv.1 = keyJsonrpc then
    match kv.2 with
    | .str s => some { m with jsonrpc := s }
    | .null => some m
    | _ => none
  else if kv.1 = keyId then
    if isNullJson kv.2 then some { m with id := none }
    else some { m with id := some kv.2 }
  else if kv.1 = keyMethod then
    match kv.2 with
    | .str s => some { m with method := s }
    | .null => some m
    | _ => none
  else if kv.1 = keyParams then some { m with params := some kv.2 }
  else if kv.1 = keyResult then some { m with result := some kv.2 }
  else if kv.1 = keyError then
    match kv.2 with
    | .null => some { m with error := none }
    | .obj fs =>
      match applyErrFields (match m.error with
        | some e => e
        | none => zeroError) fs with
      | some e2 => some { m with error := some e2 }
      | none => none
    | _ => none
  else some m

/-- Fold `applyMsgField` over an object's members in order. -/
def applyMsgFields : Message → List (List Char × Json) → Option Message
  | m, [] => some m
  | m, kv :: fs =>
    match applyMsgField m kv with
    | some m2 => applyMsgFields m2 fs
    | none => none

/-- The zero `Message` the decoder starts from. -/
def emptyMessage : Message :=
  { jsonrpc := [], id := none, method := [], params := none,
    result := none, error := none }

/-- Decode a parsed JSON value into a `Message`: a top-level object is
    folded member by member, a top-level `null` is a no-op, anything
    else is a type error. -/
def jsonToMessage : Json → Option Message
  | .obj fs => applyMsgFields emptyMessage fs
  | .null => some emptyMessage
  | _ => none

/-- `json.Unmarshal(line, &msg)`: parse one JSON value (the fuel
    `2 * length + 1` bounds parser recursion depth and is sufficient for
    any input of this length), require only trailing whitespace, then
    decode the value into a `Message`. -/
def unmarshalMessage (line : List Char) : Option Message :=
  match parseValue (2 * line.length + 1) line with
  | none => none
  | some (j, rest) => if rest.all isWs then jsonToMessage j else none

/-- `Send` (mcp.go lines 61-79): the bytes written for one message —
    its compact JSON encoding followed by exactly one newline. -/
def sendBytes (m : Message) : List Char :=
  marshalMessage m ++ ['\n']

/-- The two error classes of `Receive`: the read error propagated from
    `ReadBytes` and the wrapped unmarshal failure. -/
inductive RecvErr
  | readFailed
  | decodeFailed
deriving DecidableEq

/-- `bufio.Reader.ReadBytes('\n')` on a finite stream: the line up to
    and including the first newline, or failure (end of stream before a
    delimiter — the partial data is returned with the error, and
    `Receive` discards it). -/
def readLine : List Char → Option (List Char × List Char)
  | [] => none
  | c :: rest =>
    if c = '\n' then some (['\n'], rest)
    else
      match readLine rest with
      | some (l, r) => some (c :: l, r)
      | none => none

/-- `Receive` (mcp.go lines 82-94): read one newline-delimited frame and
    unmarshal it; a read error is returned as is (no message delivered),
    an unmarshal error is wrapped. -/
def receive (input : List Char) : Except RecvErr (Message × List Char) :=
  match readLine input with
  | none => .error .readFailed
  | some (line, rest) =>
    match unmarshalMessage line with
    | none => .error .decodeFailed
    | some m => .ok (m, rest)

/-- The bytes written by sending a sequence of messages in order. -/
def sendAll (ms : List Message) : List Char :=
  (ms.map sendBytes).flatten

/-- `n` successive `Receive` calls. -/
def receiveCount : Nat → List Char → Except RecvErr (List Message × List Char)
  | 0, input => .ok ([], input)
  | n + 1, input =>
    match receive input with
    | .error e => .error e
    | .ok (m, rest) =>
      match receiveCount n rest with
      | .ok (ms, r) => .ok (m :: ms, r)
      | .error e => .error e

/-- Go-representability of a `Message` for the round trip: the request
    id is absent or a JSON scalar (string or integer — a Go `interface`
    holding `null` is indistinguishable from an absent id), and an
    attached error's `data` interface is not the literal `null` (a nil
    interface is likewise indistinguishable from an absent one). -/
def wfMessage (m : Message) : Bool :=
  (match m.id with
   | none => true
   | some (.str _) => true
   | some (.num _) => true
   | some _ => false)
  && (match m.error with
      | none => true
      | some e =>
        match e.data with
        | some d => !isNullJson d
        | none => true)


/-- A sample message for concrete evaluation: a request with a numeric
    id, a method and object params. -/
def sampleMsg : Message where
  jsonrpc := ['2', '.', '0']
  id := some (Json.num 1)
  method := ['i', 'n', 'i', 't']
  params := some (Json.obj [(['a'], Json.str ['x'])])
  result := none
  error := none

/-- A second sample message: a response with a string id, a null result
    and an attached error carrying data. -/
def sampleMsg2 : Message where
  jsonrpc := ['2', '.', '0']
  id := some (Json.str ['a', 'b'])
  method := []
  params := none
  result := some Json.null
  error := some ⟨-5, ['b', 'a', 'd'], some (Json.arr [Json.num 3])⟩

/-! ### Round-trip lemmas: numbers -/

theorem digitsToNat_append_digit (ds : List Char) (d : Char) :
    digitsToNat (ds ++ [d]) = digitsToNat ds * 10 + (d.toNat - 48) := by
  unfold digitsToNat
  rw [List.foldl_append]
  rfl

theorem digitChar_isDigit (n : Nat) (h : n < 10) :
    (digitChar n).isDigit = true := by
  interval_cases n <;> decide

theorem digitChar_val (n : Nat) (h : n < 10) :
    (digitChar n).toNat - 48 = n := by
  interval_cases n <;> decide

theorem natDigitsF_spec :
    ∀ fuel n, n < fuel →
      natDigitsF fuel n ≠ []
      ∧ (∀ c ∈ natDigitsF fuel n, c.isDigit = true)
      ∧ digitsToNat (natDigitsF fuel n) = n := by
  intro fuel
  induction fuel with
  | zero => intro n h; omega
  | succ fuel ih =>
    intro n h
    unfold natDigitsF
    by_cases h10 : n < 10
    · rw [if_pos h10]
      refine ⟨by simp, ?_, ?_⟩
      · intro c hc
        rw [List.mem_singleton] at hc
        rw [hc]
        exact digitChar_isDigit n h10
      · show digitsToNat ([] ++ [digitChar n]) = n
        rw [digitsToNat_append_digit]
        have := digitChar_val n h10
        simp [digitsToNat]
        omega
    · rw [if_neg h10]
      have hlt : n / 10 < fuel := by omega
      obtain ⟨hne, hdig, hval⟩ := ih (n / 10) hlt
      refine ⟨by simp [hne], ?_, ?_⟩
      · intro c hc
        rcases List.mem_append.mp hc with hc | hc
        · exact hdig c hc
        · rw [List.mem_singleton] at hc
          rw [hc]
          exact digitChar_isDigit (n % 10) (by omega)
      · rw [digitsToNat_append_digit, hval, digitChar_val (n % 10) (by omega)]
        omega

theorem natDigits_spec (n : Nat) :
    natDigits n ≠ []
    ∧ (∀ c ∈ natDigits n, c.isDigit = true)
    ∧ digitsToNat (natDigits n) = n :=
  natDigitsF_spec (n + 1) n (by omega)

theorem takeDigits_split (ds rest : List Char)
    (hds : ∀ c ∈ ds, c.isDigit = true)
    (hrest : ∀ d ∈ rest.head?, d.isDigit = false) :
    takeDigits (ds ++ rest) = (ds, rest) := by
  induction ds with
  | nil =>
    cases rest with
    | nil => rfl
    | cons d t =>
      have hd : d.isDigit = false := hrest d (by simp)
      simp [takeDigits, hd]
  | cons c cs ih =>
    have hc : c.isDigit = true := hds c (List.mem_cons_self c cs)
    have ih2 := ih fun x hx => hds x (List.mem_cons_of_mem c hx)
    simp [takeDigits, hc, ih2]

/-- A digit character differs from any non-digit character. -/
theorem isDigit_ne {d : Char} (x : Char) (h : d.isDigit = true)
    (hx : x.isDigit = false) : d ≠ x := by
  intro he
  rw [he, hx] at h
  cases h

theorem parseNum_roundtrip (n : Int) (rest : List Char)
    (hrest : ∀ d ∈ rest.head?, d.isDigit = false) :
    parseNum (serNum n ++ rest) = some (n, rest) := by
  unfold serNum
  by_cases hneg : n < 0
  · rw [if_pos hneg]
    obtain ⟨hne, hdig, hval⟩ := natDigits_spec n.natAbs
    have htake := takeDigits_split (natDigits n.natAbs) rest hdig hrest
    have hmem : ('-' : Char) = '-' := rfl
    show parseNum ('-' :: (natDigits n.natAbs ++ rest)) = some (n, rest)
    unfold parseNum
    simp only [if_true]
    rw [htake]
    have hemp : (natDigits n.natAbs).isEmpty = false := by
      cases hd : natDigits n.natAbs with
      | nil => exact absurd hd hne
      | cons a b => rfl
    rw [hemp]
    simp only [Bool.false_eq_true, if_false]
    rw [hval]
    congr 1
    ext
    · omega
    · rfl
  · rw [if_neg hneg]
    obtain ⟨hne, hdig, hval⟩ := natDigits_spec n.toNat
    have htake := takeDigits_split (natDigits n.toNat) rest hdig hrest
    cases hd : natDigits n.toNat with
    | nil => exact absurd hd hne
    | cons a b =>
      rw [hd] at htake
      have ha : a.isDigit = true := by
        refine hdig a ?_
        rw [hd]
        exact List.mem_cons_self a b
      show parseNum (a :: (b ++ rest)) = some (n, rest)
      unfold parseNum
      simp only []
      have hnotminus : ¬ (a = '-') := isDigit_ne '-' ha (by decide)
      rw [if_neg hnotminus]
      have htake2 : takeDigits (a :: (b ++ rest)) = (a :: b, rest) := htake
      rw [htake2]
      have hemp : (a :: b).isEmpty = false := rfl
      rw [hemp]
      simp only [Bool.false_eq_true, if_false]
      have hval2 : digitsToNat (a :: b) = n.toNat := by rw [← hd]; exact hval
      rw [hval2]
      congr 2
      omega

/-! ### Round-trip lemmas: strings -/

theorem hexVal_hexDigitChar (k : Nat) (h : k < 16) :
    hexVal (hexDigitChar k) = some k := by
  interval_cases k <;> decide

theorem parseStringBody_roundtrip :
    ∀ (s rest : List Char),
      parseStringBody (escapeString s ++ '"' :: rest) = some (s, rest) := by
  intro s
  induction s with
  | nil =>
    intro rest
    simp [escapeString, parseStringBody]
  | cons c cs ih =>
    intro rest
    have hstep : escapeString (c :: cs) = escapeChar c ++ escapeString cs := by
      simp [escapeString]
    rw [hstep, List.append_assoc]
    unfold escapeChar
    by_cases h1 : c = '"'
    · subst h1
      rw [if_pos rfl]
      simp [parseStringBody, unescapeChar, ih]
    · rw [if_neg h1]
      by_cases h2 : c = '\\'
      · subst h2
        rw [if_pos rfl]
        simp [parseStringBody, unescapeChar, ih]
      · rw [if_neg h2]
        by_cases h3 : c = '\n'
        · subst h3
          rw [if_pos rfl]
          simp [parseStringBody, unescapeChar, ih]
        · rw [if_neg h3]
          by_cases h4 : c = '\r'
          · subst h4
            rw [if_pos rfl]
            simp [parseStringBody, unescapeChar, ih]
          · rw [if_neg h4]
            by_cases h5 : c = '\t'
            · subst h5
              rw [if_pos rfl]
              simp [parseStringBody, unescapeChar, ih]
            · rw [if_neg h5]
              by_cases h6 : c = '<' ∨ c = '>' ∨ c = '&' ∨ c.toNat < 32
              · rw [if_pos h6]
                have hlt : c.toNat < 64 := by
                  rcases h6 with h | h | h | h
                  · rw [h]; decide
                  · rw [h]; decide
                  · rw [h]; decide
                  · omega
                have hdiv : c.toNat / 16 < 16 := by omega
                have hmod : c.toNat % 16 < 16 := by omega
                have h0v : hexVal '0' = some 0 := by decide
                have hchar : Char.ofNat
                    (c.toNat / 16 * 16 + c.toNat % 16) = c := by
                  have harith : c.toNat / 16 * 16 + c.toNat % 16
                      = c.toNat := by omega
                  rw [harith, Char.ofNat_toNat]
                have hchar2 : Char.ofNat
                    (((0 * 16 + 0) * 16 + c.toNat / 16) * 16 + c.toNat % 16)
                      = c := by
                  have harith : ((0 * 16 + 0) * 16 + c.toNat / 16) * 16
                      + c.toNat % 16 = c.toNat := by omega
                  rw [harith, Char.ofNat_toNat]
                simp [parseStringBody, hex4, h0v, hexVal_hexDigitChar _ hdiv,
                  hexVal_hexDigitChar _ hmod, hchar, hchar2, ih]
              · rw [if_neg h6]
                by_cases h7 : c.toNat = 8232 ∨ c.toNat = 8233
                · rw [if_pos h7]
                  have hmod : c.toNat % 16 < 16 := by omega
                  have h2v : hexVal '2' = some 2 := by decide
                  have h0v : hexVal '0' = some 0 := by decide
                  have hchar : Char.ofNat (8224 + c.toNat % 16) = c := by
                    have harith : 8224 + c.toNat % 16 = c.toNat := by
                      rcases h7 with h | h <;> omega
                    rw [harith, Char.ofNat_toNat]
                  have hchar2 : Char.ofNat
                      (((2 * 16 + 0) * 16 + 2) * 16 + c.toNat % 16) = c := by
                    have harith : ((2 * 16 + 0) * 16 + 2) * 16 + c.toNat % 16
                        = c.toNat := by
                      rcases h7 with h | h <;> omega
                    rw [harith, Char.ofNat_toNat]
                  simp [parseStringBody, hex4, h2v, h0v,
                    hexVal_hexDigitChar _ hmod, hchar, hchar2, ih]
                · rw [if_neg h7]
                  have hge : ¬ c.toNat < 32 := fun hlt =>
                    h6 (Or.inr (Or.inr (Or.inr hlt)))
                  simp [parseStringBody, h1, h2, hge, ih]

/-! ### Head characters, whitespace, sizes and newline-freedom of the
    compact serialisation -/

theorem serNum_head (n : Int) :
    ∃ a t, serNum n = a :: t ∧ (a = '-' ∨ a.isDigit = true) := by
  unfold serNum
  by_cases h : n < 0
  · rw [if_pos h]
    exact ⟨'-', natDigits n.natAbs, rfl, Or.inl rfl⟩
  · rw [if_neg h]
    obtain ⟨hne, hdig, -⟩ := natDigits_spec n.toNat
    cases hd : natDigits n.toNat with
    | nil => exact absurd hd hne
    | cons a t =>
      refine ⟨a, t, rfl, Or.inr (hdig a ?_)⟩
      rw [hd]
      exact List.mem_cons_self a t

theorem digit_head_class {a : Char} (h : a = '-' ∨ a.isDigit = true) :
    isWs a = false ∧ a ≠ ']' ∧ a ≠ braceClose ∧ a ≠ ',' ∧ a ≠ ':'
    ∧ a ≠ 'n' ∧ a ≠ 't' ∧ a ≠ 'f' ∧ a ≠ '"' ∧ a ≠ '[' ∧ a ≠ braceOpen := by
  rcases h with h | h
  · rw [h]
    refine ⟨rfl, ?_, ?_, ?_, ?_, ?_, ?_, ?_, ?_, ?_, ?_⟩ <;> decide
  · have hsp : a ≠ ' ' := isDigit_ne ' ' h (by decide)
    have htb : a ≠ '\t' := isDigit_ne '\t' h (by decide)
    have hnl : a ≠ '\n' := isDigit_ne '\n' h (by decide)
    have hcr : a ≠ '\r' := isDigit_ne '\r' h (by decide)
    refine ⟨by simp [isWs, hsp, htb, hnl, hcr], ?_, ?_, ?_, ?_, ?_, ?_, ?_,
      ?_, ?_, ?_⟩
    · exact isDigit_ne ']' h (by decide)
    · exact isDigit_ne braceClose h (by decide)
    · exact isDigit_ne ',' h (by decide)
    · exact isDigit_ne ':' h (by decide)
    · exact isDigit_ne 'n' h (by decide)
    · exact isDigit_ne 't' h (by decide)
    · exact isDigit_ne 'f' h (by decide)
    · exact isDigit_ne '"' h (by decide)
    · exact isDigit_ne '[' h (by decide)
    · exact isDigit_ne braceOpen h (by decide)

/-- Every compact serialisation starts with a non-whitespace,
    non-delimiter character. -/
theorem serJson_head_spec (j : Json) :
    ∃ a t, serJson j = a :: t ∧ isWs a = false ∧ a ≠ ']' ∧ a ≠ braceClose
      ∧ a ≠ ',' ∧ a ≠ ':' := by
  cases j with
  | null => exact ⟨'n', _, rfl, rfl, by decide, by decide, by decide, by decide⟩
  | bool b =>
    cases b with
    | true => exact ⟨'t', _, rfl, rfl, by decide, by decide, by decide, by decide⟩
    | false => exact ⟨'f', _, rfl, rfl, by decide, by decide, by decide, by decide⟩
  | num n =>
    obtain ⟨a, t, hser, hcl⟩ := serNum_head n
    obtain ⟨h1, h2, h3, h4, h5, -⟩ := digit_head_class hcl
    exact ⟨a, t, hser, h1, h2, h3, h4, h5⟩
  | str s => exact ⟨'"', _, rfl, rfl, by decide, by decide, by decide, by decide⟩
  | arr xs => exact ⟨'[', _, rfl, rfl, by decide, by decide, by decide, by decide⟩
  | obj fs =>
    exact ⟨braceOpen, _, rfl, rfl, by decide, by decide, by decide, by decide⟩

theorem skipWs_cons_not_ws {c : Char} (t : List Char) (h : isWs c = false) :
    skipWs (c :: t) = c :: t := by
  simp [skipWs, h]

theorem skipWs_serJson (j : Json) (rest : List Char) :
    skipWs (serJson j ++ rest) = serJson j ++ rest := by
  obtain ⟨a, t, hser, hws, -⟩ := serJson_head_spec j
  rw [hser, List.cons_append, skipWs_cons_not_ws _ hws]

mutual
/-- Fuel bound: a value's parser size is at most twice its serialised
    length. -/
theorem sizeV_le_len : ∀ j : Json, sizeV j ≤ 2 * (serJson j).length
  | .null => by simp [sizeV, serJson]
  | .bool b => by cases b <;> simp [sizeV, serJson]
  | .num n => by
    obtain ⟨a, t, hser, -⟩ := serNum_head n
    show (1 : Nat) ≤ 2 * (serNum n).length
    rw [hser]
    simp only [List.length_cons]
    omega
  | .str s => by
    show (1 : Nat) ≤ 2 * (serStr s).length
    unfold serStr
    simp only [List.length_append, List.length_cons]
    omega
  | .arr xs => by
    have h := sizeL_le_len xs
    show 2 + sizeL xs ≤ 2 * ('[' :: serElems xs ++ [']']).length
    simp only [List.cons_append, List.length_cons, List.length_append,
      List.length_singleton]
    omega
  | .obj fs => by
    have h := sizeF_le_len fs
    show 2 + sizeF fs ≤ 2 * (braceOpen :: serFields fs ++ [braceClose]).length
    simp only [List.cons_append, List.length_cons, List.length_append,
      List.length_singleton]
    omega
/-- Fuel bound for element lists. -/
theorem sizeL_le_len : ∀ xs : List Json,
    sizeL xs ≤ 2 * (serElems xs).length + 1
  | [] => by simp [sizeL, serElems]
  | [x] => by
    have h := sizeV_le_len x
    show 1 + sizeV x + sizeL [] ≤ 2 * (serJson x).length + 1
    simp only [sizeL]
    omega
  | x :: y :: xs => by
    have h1 := sizeV_le_len x
    have h2 := sizeL_le_len (y :: xs)
    show 1 + sizeV x + sizeL (y :: xs)
        ≤ 2 * (serJson x ++ ',' :: serElems (y :: xs)).length + 1
    simp only [List.length_append, List.length_cons]
    omega
/-- Fuel bound for member lists. -/
theorem sizeF_le_len : ∀ fs : List (List Char × Json),
    sizeF fs ≤ 2 * (serFields fs).length + 1
  | [] => by simp [sizeF, serFields]
  | [(k, v)] => by
    have h := sizeV_le_len v
    show 1 + sizeV v + sizeF [] ≤ 2 * (serStr k ++ ':' :: serJson v).length + 1
    simp only [sizeF, List.length_append, List.length_cons]
    omega
  | (k, v) :: f :: fs => by
    have h1 := sizeV_le_len v
    have h2 := sizeF_le_len (f :: fs)
    show 1 + sizeV v + sizeF (f :: fs)
        ≤ 2 * (serStr k ++ ':' :: serJson v ++ ',' :: serFields (f :: fs)).length
          + 1
    simp only [List.length_append, List.length_cons]
    omega
end

theorem hexDigitChar_ne_newline (k : Nat) (h : k < 16) :
    hexDigitChar k ≠ '\n' := by
  interval_cases k <;> decide

theorem escapeChar_no_newline (c : Char) : '\n' ∉ escapeChar c := by
  unfold escapeChar
  by_cases h1 : c = '"'
  · rw [if_pos h1]; decide
  · rw [if_neg h1]
    by_cases h2 : c = '\\'
    · rw [if_pos h2]; decide
    · rw [if_neg h2]
      by_cases h3 : c = '\n'
      · rw [if_pos h3]; decide
      · rw [if_neg h3]
        by_cases h4 : c = '\r'
        · rw [if_pos h4]; decide
        · rw [if_neg h4]
          by_cases h5 : c = '\t'
          · rw [if_pos h5]; decide
          · rw [if_neg h5]
            by_cases h6 : c = '<' ∨ c = '>' ∨ c = '&' ∨ c.toNat < 32
            · rw [if_pos h6]
              have hlt : c.toNat < 64 := by
                rcases h6 with h | h | h | h
                · rw [h]; decide
                · rw [h]; decide
                · rw [h]; decide
                · omega
              intro hmem
              simp only [List.mem_cons, List.mem_singleton] at hmem
              rcases hmem with h | h | h | h | h | h
              · cases h
              · cases h
              · cases h
              · cases h
              · exact hexDigitChar_ne_newline _ (by omega) h.symm
              · rcases h with h | h
                · exact hexDigitChar_ne_newline _ (by omega) h.symm
                · cases h
            · rw [if_neg h6]
              by_cases h7 : c.toNat = 8232 ∨ c.toNat = 8233
              · rw [if_pos h7]
                intro hmem
                simp only [List.mem_cons, List.mem_singleton] at hmem
                rcases hmem with h | h | h | h | h | h
                · cases h
                · cases h
                · cases h
                · cases h
                · cases h
                · rcases h with h | h
                  · exact hexDigitChar_ne_newline _ (by omega) h.symm
                  · cases h
              · rw [if_neg h7]
                intro hmem
                rw [List.mem_singleton] at hmem
                exact h3 hmem.symm

theorem serStr_no_newline (s : List Char) : '\n' ∉ serStr s := by
  unfold serStr
  intro hmem
  rcases List.mem_cons.mp hmem with h | h
  · cases h
  · rcases List.mem_append.mp h with h | h
    · unfold escapeString at h
      obtain ⟨l, hl, hmem2⟩ := List.mem_flatten.mp h
      obtain ⟨c, -, hc⟩ := List.mem_map.mp hl
      rw [← hc] at hmem2
      exact escapeChar_no_newline c hmem2
    · rw [List.mem_singleton] at h
      cases h

theorem serNum_no_newline (n : Int) : '\n' ∉ serNum n := by
  unfold serNum
  have hdign : ∀ m : Nat, '\n' ∉ natDigits m := by
    intro m hmem
    obtain ⟨-, hdig, -⟩ := natDigits_spec m
    have := hdig _ hmem
    exact absurd this (by decide)
  by_cases h : n < 0
  · rw [if_pos h]
    intro hmem
    rcases List.mem_cons.mp hmem with hh | hh
    · cases hh
    · exact hdign _ hh
  · rw [if_neg h]
    exact hdign _

mutual
/-- The compact serialisation of a value contains no raw newline, so a
    frame's only newline is the trailing delimiter. -/
theorem serJson_no_newline : ∀ j : Json, '\n' ∉ serJson j
  | .null => by decide
  | .bool b => by cases b <;> decide
  | .num n => serNum_no_newline n
  | .str s => serStr_no_newline s
  | .arr xs => by
    have h := serElems_no_newline xs
    intro hmem
    show False
    rcases List.mem_cons.mp hmem with hh | hh
    · cases hh
    · rcases List.mem_append.mp hh with hh | hh
      · exact h hh
      · rw [List.mem_singleton] at hh; cases hh
  | .obj fs => by
    have h := serFields_no_newline fs
    intro hmem
    show False
    rcases List.mem_cons.mp hmem with hh | hh
    · exact absurd hh.symm (by decide)
    · rcases List.mem_append.mp hh with hh | hh
      · exact h hh
      · rw [List.mem_singleton] at hh
        exact absurd hh.symm (by decide)
/-- Element lists serialise without raw newlines. -/
theorem serElems_no_newline : ∀ xs : List Json, '\n' ∉ serElems xs
  | [] => by decide
  | [x] => serJson_no_newline x
  | x :: y :: xs => by
    have h1 := serJson_no_newline x
    have h2 := serElems_no_newline (y :: xs)
    intro hmem
    show False
    rcases List.mem_append.mp hmem with hh | hh
    · exact h1 hh
    · rcases List.mem_cons.mp hh with hh | hh
      · cases hh
      · exact h2 hh
/-- Member lists serialise without raw newlines. -/
theorem serFields_no_newline :
    ∀ fs : List (List Char × Json), '\n' ∉ serFields fs
  | [] => by decide
  | [(k, v)] => by
    have h1 := serStr_no_newline k
    have h2 := serJson_no_newline v
    intro hmem
    show False
    rcases List.mem_append.mp hmem with hh | hh
    · exact h1 hh
    · rcases List.mem_cons.mp hh with hh | hh
      · cases hh
      · exact h2 hh
  | (k, v) :: f :: fs => by
    have h1 := serStr_no_newline k
    have h2 := serJson_no_newline v
    have h3 := serFields_no_newline (f :: fs)
    intro hmem
    show False
    rcases List.mem_append.mp hmem with hh | hh
    · rcases List.mem_append.mp hh with hh | hh
      · exact h1 hh
      · rcases List.mem_cons.mp hh with hh | hh
        · cases hh
        · exact h2 hh
    · rcases List.mem_cons.mp hh with hh | hh
      · cases hh
      · exact h3 hh
end

/-! ### The main parser/serialiser round trip -/

theorem sizeV_pos (j : Json) : 1 ≤ sizeV j := by
  cases j <;> simp only [sizeV] <;> omega

theorem parse_roundtrip (fuel : Nat) :
    (∀ j rest, sizeV j ≤ fuel → (∀ d ∈ rest.head?, d.isDigit = false) →
      parseValue fuel (serJson j ++ rest) = some (j, rest))
    ∧ (∀ xs rest, xs ≠ [] → sizeL xs ≤ fuel →
      parseElemsRest fuel (serElems xs ++ ']' :: rest) = some (xs, rest))
    ∧ (∀ xs rest, 1 + sizeL xs ≤ fuel →
      parseArrBody fuel (serElems xs ++ ']' :: rest) = some (.arr xs, rest))
    ∧ (∀ fs rest, fs ≠ [] → sizeF fs ≤ fuel →
      parseFieldsRest fuel (serFields fs ++ braceClose :: rest)
        = some (fs, rest))
    ∧ (∀ fs rest, 1 + sizeF fs ≤ fuel →
      parseObjBody fuel (serFields fs ++ braceClose :: rest)
        = some (.obj fs, rest)) := by
  induction fuel with
  | zero =>
    refine ⟨?_, ?_, ?_, ?_, ?_⟩
    · intro j rest hsz _
      have := sizeV_pos j
      omega
    · intro xs rest hne hsz
      cases xs with
      | nil => exact absurd rfl hne
      | cons x xs => simp [sizeL] at hsz
    · intro xs rest hsz
      omega
    · intro fs rest hne hsz
      cases fs with
      | nil => exact absurd rfl hne
      | cons f fs =>
        obtain ⟨k, v⟩ := f
        simp [sizeF] at hsz
    · intro fs rest hsz
      omega
  | succ fuel ih =>
    obtain ⟨ihV, ihE, ihA, ihF, ihO⟩ := ih
    refine ⟨?_, ?_, ?_, ?_, ?_⟩
    · intro j rest hsz hrest
      cases j with
      | null => simp [serJson, parseValue, skipWs, isWs, afterLit]
      | bool b => cases b <;> simp [serJson, parseValue, skipWs, isWs, afterLit]
      | num n =>
        obtain ⟨a, t, hser, hcl⟩ := serNum_head n
        obtain ⟨hws, -, -, -, -, hn, ht, hf, hq, hbr, hbo⟩ := digit_head_class hcl
        have hpn := parseNum_roundtrip n rest hrest
        show parseValue (fuel + 1) (serNum n ++ rest) = some (.num n, rest)
        rw [hser] at hpn ⊢
        rw [List.cons_append] at hpn
        simp [parseValue, skipWs, hws, hn, ht, hf, hq, hbr, hbo, hpn]
      | str s =>
        have hps := parseStringBody_roundtrip s rest
        show parseValue (fuel + 1) (serStr s ++ rest) = some (.str s, rest)
        unfold serStr
        simp [parseValue, skipWs, isWs, hps]
      | arr xs =>
        have hsz2 : 1 + sizeL xs ≤ fuel := by
          simp [sizeV] at hsz
          omega
        have harr := ihA xs rest hsz2
        show parseValue (fuel + 1) (('[' :: serElems xs ++ [']']) ++ rest)
          = some (.arr xs, rest)
        simp [parseValue, skipWs, isWs, harr]
      | obj fs =>
        have hsz2 : 1 + sizeF fs ≤ fuel := by
          simp [sizeV] at hsz
          omega
        have hobj := ihO fs rest hsz2
        have hc : isWs braceOpen = false ∧ braceOpen ≠ 'n' ∧ braceOpen ≠ 't'
            ∧ braceOpen ≠ 'f' ∧ braceOpen ≠ '"' ∧ braceOpen ≠ '[' := by decide
        show parseValue (fuel + 1)
          ((braceOpen :: serFields fs ++ [braceClose]) ++ rest)
          = some (.obj fs, rest)
        simp [parseValue, skipWs, hc.1, hc.2.1, hc.2.2.1, hc.2.2.2.1,
          hc.2.2.2.2.1, hc.2.2.2.2.2, hobj]
    · intro xs rest hne hsz
      cases xs with
      | nil => exact absurd rfl hne
      | cons x xs =>
        cases xs with
        | nil =>
          have hszx : sizeV x ≤ fuel := by
            simp [sizeL] at hsz
            omega
          have hv := ihV x (']' :: rest) hszx (by simp)
          show parseElemsRest (fuel + 1) (serJson x ++ ']' :: rest)
            = some ([x], rest)
          simp [parseElemsRest, hv, skipWs, isWs]
        | cons y ys =>
          have hszx : sizeV x ≤ fuel := by
            simp [sizeL] at hsz
            omega
          have hszys : sizeL (y :: ys) ≤ fuel := by
            simp [sizeL] at hsz ⊢
            omega
          have hv := ihV x (',' :: (serElems (y :: ys) ++ ']' :: rest)) hszx
            (by simp)
          have he := ihE (y :: ys) rest (by simp) hszys
          show parseElemsRest (fuel + 1)
            ((serJson x ++ ',' :: serElems (y :: ys)) ++ ']' :: rest)
            = some (x :: y :: ys, rest)
          rw [List.append_assoc, List.cons_append]
          simp [parseElemsRest, hv, he, skipWs, isWs]
    · intro xs rest hsz
      cases xs with
      | nil =>
        show parseArrBody (fuel + 1) (']' :: rest) = some (.arr [], rest)
        simp [parseArrBody, skipWs, isWs]
      | cons x xs =>
        have hE : ∃ E, serElems (x :: xs) = serJson x ++ E := by
          cases xs with
          | nil => exact ⟨[], by simp [serElems]⟩
          | cons y ys => exact ⟨',' :: serElems (y :: ys), rfl⟩
        obtain ⟨E, hEeq⟩ := hE
        obtain ⟨a, t, hser, hws, hbr, -, -, -⟩ := serJson_head_spec x
        have he := ihE (x :: xs) rest (by simp) (by omega)
        show parseArrBody (fuel + 1) (serElems (x :: xs) ++ ']' :: rest)
          = some (.arr (x :: xs), rest)
        rw [hEeq] at he ⊢
        rw [hser] at he ⊢
        simp only [List.cons_append, List.append_assoc] at he ⊢
        simp [parseArrBody, skipWs, hws, hbr, he]
    · intro fs rest hne hsz
      cases fs with
      | nil => exact absurd rfl hne
      | cons f fs =>
        obtain ⟨k, v⟩ := f
        cases fs with
        | nil =>
          have hszv : sizeV v ≤ fuel := by
            simp [sizeF] at hsz
            omega
          have hk := parseStringBody_roundtrip k
            (':' :: (serJson v ++ braceClose :: rest))
          have hv := ihV v (braceClose :: rest) hszv (by simp; decide)
          show parseFieldsRest (fuel + 1)
            ((serStr k ++ ':' :: serJson v) ++ braceClose :: rest)
            = some ([(k, v)], rest)
          unfold serStr
          simp only [List.cons_append, List.append_assoc, List.singleton_append]
          have hb1 : ¬ braceClose = ' ' := by decide
          have hb2 : ¬ braceClose = '\t' := by decide
          have hb3 : ¬ braceClose = '\n' := by decide
          have hb4 : ¬ braceClose = '\r' := by decide
          have hb5 : ¬ braceClose = ',' := by decide
          simp [parseFieldsRest, skipWs, isWs, hk, hv, hb1, hb2, hb3, hb4, hb5]
        | cons g gs =>
          have hszv : sizeV v ≤ fuel := by
            simp [sizeF] at hsz
            omega
          have hszgs : sizeF (g :: gs) ≤ fuel := by
            simp [sizeF] at hsz ⊢
            omega
          have hk := parseStringBody_roundtrip k
            (':' :: (serJson v ++ ',' :: (serFields (g :: gs) ++ braceClose :: rest)))
          have hv := ihV v (',' :: (serFields (g :: gs) ++ braceClose :: rest))
            hszv (by simp)
          have hg := ihF (g :: gs) rest (by simp) hszgs
          show parseFieldsRest (fuel + 1)
            (((serStr k ++ ':' :: serJson v) ++ ',' :: serFields (g :: gs))
              ++ braceClose :: rest)
            = some ((k, v) :: g :: gs, rest)
          unfold serStr
          simp only [List.cons_append, List.append_assoc, List.singleton_append]
          simp [parseFieldsRest, skipWs, isWs, hk, hv, hg]
    · intro fs rest hsz
      cases fs with
      | nil =>
        have hcb : isWs braceClose = false ∧ braceClose = braceClose := by decide
        show parseObjBody (fuel + 1) (braceClose :: rest) = some (.obj [], rest)
        simp [parseObjBody, skipWs, hcb.1]
      | cons f fs =>
        obtain ⟨k, v⟩ := f
        have hE : ∃ E, serFields ((k, v) :: fs) = serStr k ++ E := by
          cases fs with
          | nil => exact ⟨':' :: serJson v, rfl⟩
          | cons g gs =>
            exact ⟨':' :: serJson v ++ ',' :: serFields (g :: gs), by
              show (serStr k ++ ':' :: serJson v) ++ ',' :: serFields (g :: gs)
                = serStr k ++ (':' :: serJson v ++ ',' :: serFields (g :: gs))
              rw [List.append_assoc]⟩
        obtain ⟨E, hEeq⟩ := hE
        have hf := ihF ((k, v) :: fs) rest (by simp) (by omega)
        show parseObjBody (fuel + 1)
          (serFields ((k, v) :: fs) ++ braceClose :: rest)
          = some (.obj ((k, v) :: fs), rest)
        rw [hEeq] at hf ⊢
        unfold serStr at hf ⊢
        simp only [List.cons_append, List.append_assoc, List.nil_append] at hf ⊢
        have hqb : ('"' : Char) ≠ braceClose := by decide
        simp [parseObjBody, skipWs, isWs, hqb, hf]

/-! ### Decoding a marshalled message recovers the message -/

theorem applyErrFields_roundtrip (e : Error)
    (h : ∀ d, e.data = some d → isNullJson d = false) :
    applyErrFields zeroError
      ([(keyCode, .num e.code), (keyMessage, .str e.message)]
        ++ (match e.data with
            | none => []
            | some d => [(keyData, d)]))
      = some e := by
  obtain ⟨ec, em, ed⟩ := e
  rcases ed with _ | d
  · simp [applyErrFields, applyErrField, zeroError, keyCode, keyMessage,
      keyData]
  · have hd := h d rfl
    simp [applyErrFields, applyErrField, zeroError, keyCode, keyMessage,
      keyData, hd]

theorem jsonToMessage_roundtrip (m : Message) (h : wfMessage m = true) :
    jsonToMessage (.obj (msgFields m)) = some m := by
  obtain ⟨jr, mid, mth, par, res, merr⟩ := m
  unfold wfMessage at h
  rw [Bool.and_eq_true] at h
  obtain ⟨hid, herr⟩ := h
  rcases merr with _ | e
  · cases mid with
    | some v =>
      cases v with
      | null => simp at hid
      | bool b => simp at hid
      | arr xs => simp at hid
      | obj fs2 => simp at hid
      | str s =>
        by_cases hm : mth = [] <;> rcases par with _ | pv <;>
          rcases res with _ | rv <;>
          simp [jsonToMessage, msgFields, applyMsgFields, applyMsgField,
            emptyMessage, isNullJson, keyJsonrpc, keyId, keyMethod,
            keyParams, keyResult, keyError, hm]
      | num n =>
        by_cases hm : mth = [] <;> rcases par with _ | pv <;>
          rcases res with _ | rv <;>
          simp [jsonToMessage, msgFields, applyMsgFields, applyMsgField,
            emptyMessage, isNullJson, keyJsonrpc, keyId, keyMethod,
            keyParams, keyResult, keyError, hm]
    | none =>
      by_cases hm : mth = [] <;> rcases par with _ | pv <;>
        rcases res with _ | rv <;>
        simp [jsonToMessage, msgFields, applyMsgFields, applyMsgField,
          emptyMessage, isNullJson, keyJsonrpc, keyId, keyMethod,
          keyParams, keyResult, keyError, hm]
  · obtain ⟨ec, em, ed⟩ := e
    rcases ed with _ | d
    · have herrdec : applyErrFields zeroError
            [(keyCode, Json.num ec), (keyMessage, Json.str em)]
            = some ⟨ec, em, none⟩ := by
          simpa using applyErrFields_roundtrip ⟨ec, em, none⟩
            (fun d2 hd2 => by cases hd2)
      cases mid with
      | some v =>
        cases v with
        | null => simp at hid
        | bool b => simp at hid
        | arr xs => simp at hid
        | obj fs2 => simp at hid
        | str s =>
          by_cases hm : mth = [] <;> rcases par with _ | pv <;>
            rcases res with _ | rv <;>
            simp [jsonToMessage, msgFields, errorToJson, applyMsgFields,
              applyMsgField, emptyMessage, isNullJson, keyJsonrpc, keyId,
              keyMethod, keyParams, keyResult, keyError, hm, herrdec]
        | num n =>
          by_cases hm : mth = [] <;> rcases par with _ | pv <;>
            rcases res with _ | rv <;>
            simp [jsonToMessage, msgFields, errorToJson, applyMsgFields,
              applyMsgField, emptyMessage, isNullJson, keyJsonrpc, keyId,
              keyMethod, keyParams, keyResult, keyError, hm, herrdec]
      | none =>
        by_cases hm : mth = [] <;> rcases par with _ | pv <;>
          rcases res with _ | rv <;>
          simp [jsonToMessage, msgFields, errorToJson, applyMsgFields,
            applyMsgField, emptyMessage, isNullJson, keyJsonrpc, keyId,
            keyMethod, keyParams, keyResult, keyError, hm, herrdec]
    · have hd : isNullJson d = false := by simpa using herr
      have herrdec : applyErrFields zeroError
          [(keyCode, Json.num ec), (keyMessage, Json.str em), (keyData, d)]
          = some ⟨ec, em, some d⟩ := by
        simpa using applyErrFields_roundtrip ⟨ec, em, some d⟩
          (fun d2 hd2 => by
            have hdd : d = d2 := Option.some.inj hd2
            rw [← hdd]
            exact hd)
      cases mid with
      | some v =>
        cases v with
        | null => simp at hid
        | bool b => simp at hid
        | arr xs => simp at hid
        | obj fs2 => simp at hid
        | str s =>
          by_cases hm : mth = [] <;> rcases par with _ | pv <;>
            rcases res with _ | rv <;>
            simp [jsonToMessage, msgFields, errorToJson, applyMsgFields,
              applyMsgField, emptyMessage, isNullJson, keyJsonrpc, keyId,
              keyMethod, keyParams, keyResult, keyError, hm, herrdec]
        | num n =>
          by_cases hm : mth = [] <;> rcases par with _ | pv <;>
            rcases res with _ | rv <;>
            simp [jsonToMessage, msgFields, errorToJson, applyMsgFields,
              applyMsgField, emptyMessage, isNullJson, keyJsonrpc, keyId,
              keyMethod, keyParams, keyResult, keyError, hm, herrdec]
      | none =>
        by_cases hm : mth = [] <;> rcases par with _ | pv <;>
          rcases res with _ | rv <;>
          simp [jsonToMessage, msgFields, errorToJson, applyMsgFields,
            applyMsgField, emptyMessage, isNullJson, keyJsonrpc, keyId,
            keyMethod, keyParams, keyResult, keyError, hm, herrdec]

/-! ### Unmarshal of marshal, line reading, and the receive round trip -/

theorem unmarshal_marshal_nl (m : Message) (h : wfMessage m = true) :
    unmarshalMessage (marshalMessage m ++ ['\n']) = some m := by
  simp only [marshalMessage, unmarshalMessage]
  have hfuel : sizeV (Json.obj (msgFields m))
      ≤ 2 * (serJson (Json.obj (msgFields m)) ++ ['\n']).length + 1 := by
    have hle := sizeV_le_len (Json.obj (msgFields m))
    simp only [List.length_append, List.length_cons, List.length_nil]
    omega
  have hparse := (parse_roundtrip
      (2 * (serJson (Json.obj (msgFields m)) ++ ['\n']).length + 1)).1
      (Json.obj (msgFields m)) ['\n'] hfuel (fun d hd => by
        simp only [List.head?_cons, Option.mem_def, Option.some.injEq] at hd
        subst hd
        decide)
  rw [hparse]
  have hws : List.all ['\n'] isWs = true := by decide
  simp only [hws, if_true]
  exact jsonToMessage_roundtrip m h

theorem readLine_append (l rest : List Char) (hl : '\n' ∉ l) :
    readLine (l ++ '\n' :: rest) = some (l ++ ['\n'], rest) := by
  induction l with
  | nil => simp [readLine]
  | cons c cs ih =>
    have hc : ¬ c = '\n' := fun hh => hl (by simp [hh])
    have hcs : '\n' ∉ cs := fun hh => hl (List.mem_cons_of_mem _ hh)
    simp [readLine, hc, ih hcs]

theorem readLine_no_newline (input : List Char) (h : '\n' ∉ input) :
    readLine input = none := by
  induction input with
  | nil => rfl
  | cons c cs ih =>
    have hc : ¬ c = '\n' := fun hh => h (by simp [hh])
    have hcs : '\n' ∉ cs := fun hh => h (List.mem_cons_of_mem _ hh)
    simp [readLine, hc, ih hcs]

theorem receive_sendBytes (m : Message) (rest : List Char)
    (h : wfMessage m = true) :
    receive (sendBytes m ++ rest) = .ok (m, rest) := by
  unfold receive sendBytes
  have hnl : '\n' ∉ marshalMessage m := serJson_no_newline _
  have hr : readLine ((marshalMessage m ++ ['\n']) ++ rest)
      = some (marshalMessage m ++ ['\n'], rest) := by
    rw [List.append_assoc]
    exact readLine_append _ _ hnl
  rw [hr]
  simp only []
  rw [unmarshal_marshal_nl m h]

theorem receiveCount_sendAll (ms : List Message) (rest : List Char)
    (h : ∀ x ∈ ms, wfMessage x = true) :
    receiveCount ms.length (sendAll ms ++ rest) = .ok (ms, rest) := by
  induction ms with
  | nil => simp [sendAll, receiveCount]
  | cons m msTail ih =>
    have hm : wfMessage m = true := h m (by simp)
    have hms : ∀ x ∈ msTail, wfMessage x = true :=
      fun x hx => h x (List.mem_cons_of_mem _ hx)
    have hflat : sendAll (m :: msTail) ++ rest
        = sendBytes m ++ (sendAll msTail ++ rest) := by
      simp [sendAll]
    rw [List.length_cons, hflat]
    simp only [receiveCount]
    rw [receive_sendBytes m _ hm]
    simp only []
    rw [ih hms]

/-- C3: transport round trip.  `Send` writes exactly the compact JSON
    encoding of the message followed by one newline — and the encoding
    itself contains no newline, so the frame holds exactly one newline
    byte; a `Receive` on a stream beginning with that frame returns a
    message field-for-field identical to the one sent, consuming exactly
    the frame; and `n` messages sent on one direction are received by
    `n` successive `Receive` calls in the same order. -/
theorem transport_roundtrip (m : Message) (ms : List Message)
    (rest rest2 : List Char) (h : wfMessage m = true)
    (hms : ∀ x ∈ ms, wfMessage x = true) :
    sendBytes m = marshalMessage m ++ ['\n']
    ∧ '\n' ∉ marshalMessage m
    ∧ receive (sendBytes m ++ rest) = .ok (m, rest)
    ∧ receiveCount ms.length (sendAll ms ++ rest2) = .ok (ms, rest2) :=
  ⟨rfl, serJson_no_newline _, receive_sendBytes m rest h,
    receiveCount_sendAll ms rest2 hms⟩

theorem transport_roundtrip_witness :
    wfMessage sampleMsg = true
    ∧ (∀ x ∈ [sampleMsg, sampleMsg2], wfMessage x = true)
    ∧ (sendBytes sampleMsg = marshalMessage sampleMsg ++ ['\n']
       ∧ '\n' ∉ marshalMessage sampleMsg
       ∧ receive (sendBytes sampleMsg ++ ['x']) = .ok (sampleMsg, ['x'])
       ∧ receiveCount [sampleMsg, sampleMsg2].length
           (sendAll [sampleMsg, sampleMsg2] ++ [])
           = .ok ([sampleMsg, sampleMsg2], [])) := by
  have hms : ∀ x ∈ [sampleMsg, sampleMsg2], wfMessage x = true := by
    intro x hx
    rcases List.mem_cons.mp hx with rfl | hx
    · rfl
    · rcases List.mem_cons.mp hx with rfl | hx
      · rfl
      · cases hx
  exact ⟨rfl, hms,
    transport_roundtrip sampleMsg [sampleMsg, sampleMsg2] ['x'] [] rfl hms⟩

/-- C10: if the stream ends before a newline delimiter is seen, `Receive`
    returns the read error and delivers no message — the bytes of the
    partial, non-newline-terminated trailing frame are discarded, never
    decoded or surfaced. -/
theorem receive_needs_newline (input : List Char) (h : '\n' ∉ input) :
    receive input = .error .readFailed := by
  unfold receive
  rw [readLine_no_newline input h]

theorem receive_needs_newline_witness :
    '\n' ∉ ['a', 'b', 'c']
    ∧ receive ['a', 'b', 'c'] = .error .readFailed :=
  ⟨by decide, receive_needs_newline ['a', 'b', 'c'] (by decide)⟩

end MCPAdapter
